import Mathlib

/-!
# note-fzf-go: a shallow embedding of `cmd/main.go`

The program is a menu loop around five operations on a flat notes directory.
Everything it does is a system call, a subprocess launch, a read of standard
input or a print, so the embedding is explicit state passing over

* `World`: the storage (a directory tree) and the trace of events so far;
* `Env`: what the outside answers during one operation (the clock, the line
  typed on standard input, what the selector prints, what the editor session
  does to storage, and failures of system calls that the storage model alone
  cannot predict, such as a permission error).

Go strings are modelled by Lean strings (sequences of Unicode scalar values),
paths by the list of their components after `filepath.Clean`. The system
resolves a path to a place in storage against the working directory (`locate`).
-/

namespace NoteFzf

/-! ## Strings (package `strings`, `unicode`) -/

/-- White space as `unicode.IsSpace` defines it: the Latin-1 cases
`\t \n \v \f \r`, space, U+0085, U+00A0, and the `White_Space` table beyond. -/
def unicode.IsSpace (c : Char) : Bool :=
  let n := c.toNat
  (9 ≤ n && n ≤ 13) || n == 32 || n == 133 || n == 160 || n == 5760 ||
  (8192 ≤ n && n ≤ 8202) || n == 8232 || n == 8233 || n == 8239 || n == 8287 ||
  n == 12288

/-- Go `strings.TrimSpace`: all leading and trailing white space removed. -/
def strings.TrimSpace (s : String) : String :=
  ⟨((s.data.dropWhile unicode.IsSpace).reverse.dropWhile unicode.IsSpace).reverse⟩

/-- Go `strings.HasSuffix`. -/
def strings.HasSuffix (s suffix : String) : Bool :=
  suffix.data.reverse.isPrefixOf s.data.reverse

/-- Go `strings.Join`: the elements with `sep` between consecutive ones. -/
def strings.Join : List String → String → String
  | [], _ => ""
  | [a], _ => a
  | a :: b :: rest, sep => a ++ sep ++ strings.Join (b :: rest) sep

/-! ## Paths (package `path/filepath`) -/

/-- The two families of platforms Go's `filepath` distinguishes. -/
inductive GOOS
  | unix
  | windows
deriving DecidableEq, Repr

/-- Go `os.IsPathSeparator`: the slash everywhere, the backslash (U+005C) on
Windows as well. -/
def IsPathSeparator (goos : GOOS) (c : Char) : Bool :=
  c == '/' || (goos == GOOS.windows && c == Char.ofNat 92)

/-- A path as the program holds it after `filepath.Clean`: its components,
outermost first. A rooted path begins with the component `/`, a path rooted
on a Windows drive with the drive (`E:`), and a relative path may begin with
`..` components. -/
abbrev Path := List String

/-- A place in storage: the names to follow from the root of storage. On Unix
the root is `/`; on Windows its entries are the drives. -/
abbrev Location := List String

/-- Cuts a list of characters at every separator (empty pieces included). -/
def splitChars (p : Char → Bool) : List Char → List Char → List (List Char)
  | cur, [] => [cur.reverse]
  | cur, c :: cs =>
    if p c then cur.reverse :: splitChars p [] cs else splitChars p (c :: cur) cs

/-- The pieces of a path string between separators. -/
def splitPath (goos : GOOS) (s : String) : List String :=
  (splitChars (IsPathSeparator goos) [] s.data).map String.mk

/-- The lexical rules of `filepath.Clean` on components: empty components and
`.` vanish; `..` removes the component before it; a `..` with nothing before
it to remove is dropped in a rooted path and kept in a relative one. `acc`
holds the components kept so far, innermost first. -/
def cleanComponents (rooted : Bool) : List String → List String → List String
  | acc, [] => acc.reverse
  | acc, c :: cs =>
    if c = "" ∨ c = "." then cleanComponents rooted acc cs
    else if c = ".." then
      match acc with
      | [] =>
        if rooted then cleanComponents rooted [] cs
        else cleanComponents rooted [".."] cs
      | a :: acc' =>
        if a = ".." then cleanComponents rooted (".." :: a :: acc') cs
        else cleanComponents rooted acc' cs
    else cleanComponents rooted (c :: acc) cs

/-- A Windows drive: a letter and a colon. -/
def isDriveName (s : String) : Bool :=
  match s.data with
  | [c, d] => c.isAlpha && d == ':'
  | _ => false

/-- Go `filepath.Join`: the non-empty elements joined by a separator, then
cleaned. On Windows a first piece `E:` followed by a separator roots the path
on that drive; a leading separator roots it; anything else is relative.
(UNC paths and paths relative to a drive are not modelled; the program builds
none.) -/
def filepath.Join (goos : GOOS) (elem : List String) : Path :=
  match (elem.filter (fun e => e ≠ "")).flatMap (splitPath goos) with
  | [] => []
  | first :: rest =>
    if goos = GOOS.windows ∧ isDriveName first = true ∧ rest ≠ [] then
      first :: cleanComponents true [] rest
    else if first = "" ∧ rest ≠ [] then "/" :: cleanComponents true [] rest
    else cleanComponents false [] (first :: rest)

/-! ## Errors -/

/-- The `error` values the program can meet. -/
inductive GoError
  | notExist
  | notDir
  | isDir
  | notEmpty
  | other (msg : String)
deriving DecidableEq, Repr

/-- Go `err.Error()`. -/
def GoError.Error : GoError → String
  | .notExist => "no such file or directory"
  | .notDir => "not a directory"
  | .isDir => "is a directory"
  | .notEmpty => "directory not empty"
  | .other msg => msg

/-- Go `os.IsNotExist`. A path that runs through a regular file is ENOTDIR on
Unix (not "not exist") and ERROR_PATH_NOT_FOUND on Windows ("not exist"). -/
def os.IsNotExist (goos : GOOS) : Option GoError → Bool
  | some .notExist => true
  | some .notDir => goos == GOOS.windows
  | _ => false

/-! ## Storage -/

/-- The content of a directory: a sequence of entries, each a regular file
with its content or a directory with its own content. -/
inductive Forest
  | nil
  | file (name : String) (content : String) (rest : Forest)
  | dir (name : String) (kids : Forest) (rest : Forest)
deriving DecidableEq, Repr

/-- What a name in a directory denotes. -/
inductive Node
  | file (content : String)
  | dir (kids : Forest)
deriving DecidableEq, Repr

/-- The entry `name ↦ v` in front of `rest`. -/
def Node.entry : Node → String → Forest → Forest
  | .file c, n, rest => .file n c rest
  | .dir k, n, rest => .dir n k rest

/-- The entry of this name, if any. -/
def Forest.get : Forest → String → Option Node
  | .nil, _ => none
  | .file m c rest, n => if m = n then some (.file c) else rest.get n
  | .dir m k rest, n => if m = n then some (.dir k) else rest.get n

/-- The entry names, in the order the directory is read. -/
def Forest.names : Forest → List String
  | .nil => []
  | .file m _ rest => m :: rest.names
  | .dir m _ rest => m :: rest.names

/-- The directory without the entries of this name. -/
def Forest.erase : Forest → String → Forest
  | .nil, _ => .nil
  | .file m c rest, n => if m = n then rest.erase n else .file m c (rest.erase n)
  | .dir m k rest, n => if m = n then rest.erase n else .dir m k (rest.erase n)

/-- The directory with `n ↦ v`: in place of the entry of that name, or as a
new last entry. -/
def Forest.put : Forest → String → Node → Forest
  | .nil, n, v => v.entry n .nil
  | .file m c rest, n, v => if m = n then v.entry n rest else .file m c (rest.put n v)
  | .dir m k rest, n, v => if m = n then v.entry n rest else .dir m k (rest.put n v)

/-- Sets or removes the entry of a name. -/
def Forest.set (f : Forest) (n : String) : Option Node → Forest
  | some v => f.put n v
  | none => f.erase n

/-- Path resolution from the root. -/
def Forest.find : Forest → Location → Except GoError Node
  | f, [] => .ok (.dir f)
  | f, n :: p =>
    match f.get n, p with
    | none, _ => .error .notExist
    | some (.file c), [] => .ok (.file c)
    | some (.file _), _ :: _ => .error .notDir
    | some (.dir k), _ => Forest.find k p

/-- What can be observed at a path. -/
inductive Kind
  | absent
  | regular (content : String)
  | directory
deriving DecidableEq, Repr

/-- The observation at a path: nothing, a regular file and its content, or a
directory. -/
def Forest.view (f : Forest) (p : Location) : Kind :=
  match f.find p with
  | .error _ => .absent
  | .ok (.file c) => .regular c
  | .ok (.dir _) => .directory

/-- Replaces the entry at a path by what `g` makes of it; every directory on
the way must exist. The root itself has no entry to replace. -/
def Forest.alter (g : Option Node → Except GoError (Option Node)) :
    Forest → Location → Except GoError Forest
  | _, [] => .error (.other "invalid argument")
  | f, [n] => (g (f.get n)).map (f.set n)
  | f, n :: m :: p =>
    match f.get n with
    | some (.dir k) => (Forest.alter g k (m :: p)).map (fun k' => f.put n (.dir k'))
    | some (.file _) => .error .notDir
    | none => .error .notExist

/-- The effect of `os.WriteFile` on an entry: a regular file is created or
truncated, a directory is refused. -/
def writeEntry (data : String) : Option Node → Except GoError (Option Node)
  | some (.dir _) => .error .isDir
  | _ => .ok (some (.file data))

/-- The effect of `os.Remove` on an entry: a regular file or an empty
directory goes away. -/
def removeEntry : Option Node → Except GoError (Option Node)
  | some (.file _) => .ok none
  | some (.dir .nil) => .ok none
  | some (.dir _) => .error .notEmpty
  | none => .error .notExist

/-- The storage after `os.MkdirAll`: the directory and every missing parent
are created; a directory that exists is left alone; a regular file in the way
is an error. -/
def Forest.mkdirAll : Forest → Location → Except GoError Forest
  | f, [] => .ok f
  | f, n :: p =>
    match f.get n with
    | none => (Forest.mkdirAll .nil p).map (fun k => f.put n (.dir k))
    | some (.dir k) => (Forest.mkdirAll k p).map (fun k' => f.put n (.dir k'))
    | some (.file _) => .error .notDir

/-! ## Time (package `time`) -/

/-- A wall-clock reading. -/
structure Time where
  year : Nat
  month : Nat
  day : Nat
  hour : Nat
  minute : Nat
  second : Nat
deriving DecidableEq, Repr

/-- Decimal digits of `n`, zero-padded on the left to `width`. -/
def zeroPad (width n : Nat) : String :=
  let d := Nat.toDigits 10 n
  ⟨List.replicate (width - d.length) '0' ++ d⟩

/-- Go `Time.Format` for the two layouts the program uses. -/
def Time.Format (t : Time) (layout : String) : String :=
  let date := zeroPad 4 t.year ++ "-" ++ zeroPad 2 t.month ++ "-" ++ zeroPad 2 t.day
  if layout = "2006-01-02" then date
  else if layout = "2006-01-02 15:04:05" then
    date ++ " " ++ zeroPad 2 t.hour ++ ":" ++ zeroPad 2 t.minute ++ ":" ++ zeroPad 2 t.second
  else layout

/-! ## Worlds, environments, events -/

/-- An argument of a subprocess: plain text, or a path (kept in resolved form). -/
inductive Arg
  | text (s : String)
  | path (p : Path)
deriving DecidableEq, Repr

/-- What the program does that the outside can see. `call` marks the entry
into one of the operations the menu dispatches to. -/
inductive Event
  | call (fn : String)
  | print (text : String)
  | scan (line : String)
  | stat (p : Path)
  | mkdirAll (p : Path)
  | readDir (p : Path)
  | writeFile (p : Path) (data : String)
  | remove (p : Path)
  | run (name : String) (args : List Arg) (stdin : Option String)
deriving DecidableEq, Repr

/-- The state threaded through the program. -/
structure World where
  fs : Forest
  trace : List Event
deriving DecidableEq, Repr

/-- The answers of the outside during one operation. -/
structure Env where
  /-- The platform the program runs on. -/
  goos : GOOS
  /-- The working directory of the process. -/
  cwd : Location
  /-- The first reading of `time.Now()` in the operation. -/
  now₁ : Time
  /-- The second reading of `time.Now()` in the operation. -/
  now₂ : Time
  /-- The token `scanner.Text()` holds after `scanner.Scan()`. -/
  line : String
  /-- What `cmd.Output()` of the selector gives for its arguments and input:
  its standard output, or an error (launch failure, non-zero exit). -/
  fzfOutput : List Arg → String → Except GoError String
  /-- What the editor session on a path does to storage, and the error of
  `cmd.Run()` if any. -/
  editorRun : Path → Forest → Forest × Option GoError
  /-- A failure of `os.Stat` that storage does not explain. -/
  statFault : Option String
  /-- A failure of `os.ReadDir` that storage does not explain. -/
  readDirFault : Option String
  /-- A failure of `os.WriteFile` that storage does not explain. -/
  writeFault : Option String
  /-- A failure of `os.Remove` that storage does not explain. -/
  removeFault : Option String
  /-- A failure of `os.MkdirAll` that storage does not explain. -/
  mkdirFault : Option String

/-- One step of path resolution: `..` goes to the parent (the root is its own
parent), any other name goes down. -/
def stepInto (loc : Location) (c : String) : Location :=
  if c = ".." then loc.dropLast else loc ++ [c]

/-- Where the system resolves a path: a rooted Unix path from the root, a
path on a Windows drive from the drives, a rooted Windows path from the drive
of the working directory, a relative path from the working directory. -/
def locate (env : Env) (p : Path) : Location :=
  match p with
  | [] => env.cwd
  | first :: rest =>
    if env.goos = GOOS.windows ∧ isDriveName first = true then rest.foldl stepInto [first]
    else if first = "/" then
      rest.foldl stepInto (if env.goos = GOOS.windows then env.cwd.take 1 else [])
    else (first :: rest).foldl stepInto env.cwd

/-- Appends an event to the trace. -/
def World.log (w : World) (e : Event) : World :=
  { w with trace := w.trace ++ [e] }

/-- The events of `w'` after the first `|w.trace|` ones. -/
def eventsSince (w w' : World) : List Event :=
  w'.trace.drop w.trace.length

/-! ## System calls (package `os`), printing (package `fmt`), subprocesses -/

/-- Go `os.Stat`, of which the program keeps the error only. -/
def os.Stat (env : Env) (w : World) (p : Path) : Option GoError × World :=
  let w' := w.log (.stat p)
  match env.statFault with
  | some msg => (some (.other msg), w')
  | none =>
    match w.fs.find (locate env p) with
    | .error e => (some e, w')
    | .ok _ => (none, w')

/-- Go `os.MkdirAll`. -/
def os.MkdirAll (env : Env) (w : World) (p : Path) : Option GoError × World :=
  let w' := w.log (.mkdirAll p)
  match env.mkdirFault with
  | some msg => (some (.other msg), w')
  | none =>
    match w.fs.mkdirAll (locate env p) with
    | .error e => (some e, w')
    | .ok fs' => (none, { w' with fs := fs' })

/-- Go `os.ReadDir`, of which the program uses the entry names only. -/
def os.ReadDir (env : Env) (w : World) (p : Path) : Except GoError (List String) × World :=
  let w' := w.log (.readDir p)
  match env.readDirFault with
  | some msg => (.error (.other msg), w')
  | none =>
    match w.fs.find (locate env p) with
    | .error e => (.error e, w')
    | .ok (.file _) => (.error .notDir, w')
    | .ok (.dir k) => (.ok k.names, w')

/-- Go `os.WriteFile`. -/
def os.WriteFile (env : Env) (w : World) (p : Path) (data : String) : Option GoError × World :=
  let w' := w.log (.writeFile p data)
  match env.writeFault with
  | some msg => (some (.other msg), w')
  | none =>
    match w.fs.alter (writeEntry data) (locate env p) with
    | .error e => (some e, w')
    | .ok fs' => (none, { w' with fs := fs' })

/-- Go `os.Remove`. -/
def os.Remove (env : Env) (w : World) (p : Path) : Option GoError × World :=
  let w' := w.log (.remove p)
  match env.removeFault with
  | some msg => (some (.other msg), w')
  | none =>
    match w.fs.alter removeEntry (locate env p) with
    | .error e => (some e, w')
    | .ok fs' => (none, { w' with fs := fs' })

/-- Go `fmt.Print` of one string. -/
def fmt.Print (s : String) (w : World) : World :=
  w.log (.print s)

/-- Go `fmt.Println`: the operands separated by spaces, then a newline. -/
def fmt.Println (operands : List String) (w : World) : World :=
  w.log (.print (strings.Join operands " " ++ "\n"))

/-- A fresh `bufio.Scanner` on standard input: `Scan()` then `Text()`. -/
def scanText (env : Env) (w : World) : String × World :=
  (env.line, w.log (.scan env.line))

/-- Go `cmd.Output()` of a selector command fed `stdin`. -/
def cmdOutput (env : Env) (w : World) (name : String) (args : List Arg) (stdin : String) :
    Except GoError String × World :=
  (env.fzfOutput args stdin, w.log (.run name args (some stdin)))

/-! ## The program -/

/-- The notes directory. -/
def notesDir : String := "E:/Notes"

/-- The editor command. -/
def editor : String := "nvim"

/-- The selector command. -/
def fzf : String := "fzf"

/-- How a run ends or goes on: the process is still alive, or it has exited. -/
inductive Step
  | cont (w : World)
  | exit (code : Nat) (w : World)
deriving DecidableEq, Repr

/-- `ensureNotesDir` of `main.go`. -/
def ensureNotesDir (env : Env) (w : World) : Step :=
  let (err, w) := os.Stat env w (filepath.Join env.goos [notesDir])
  if os.IsNotExist env.goos err then
    let (err, w) := os.MkdirAll env w (filepath.Join env.goos [notesDir])
    match err with
    | some e => .exit 1 (fmt.Println ["Error creating notes directory:", e.Error] w)
    | none => .cont (fmt.Println ["Created notes directory:", notesDir] w)
  else .cont w

/-- `openInEditor` of `main.go`. The editor inherits the standard streams. -/
def openInEditor (env : Env) (filePath : Path) (w : World) : World :=
  let w := w.log (.run editor [.path filePath] none)
  let (fs', err) := env.editorRun filePath w.fs
  let w := { w with fs := fs' }
  match err with
  | some e => fmt.Println ["Error opening note:", e.Error] w
  | none => w

/-- `newNote` of `main.go`. -/
def newNote (env : Env) (w : World) : World :=
  let w := w.log (.call "newNote")
  let w := fmt.Print "Enter the note title: " w
  let (title, w) := scanText env w
  let date := env.now₁.Format "2006-01-02"
  let fileName := date ++ "_" ++ title ++ ".md"
  let filePath := filepath.Join env.goos [notesDir, fileName]
  let (err, w) := os.Stat env w filePath
  if !os.IsNotExist env.goos err then
    let w := fmt.Println ["Note already exists:", fileName] w
    openInEditor env filePath w
  else
    let content := "# " ++ title ++ "\n\nCreated: " ++ env.now₂.Format "2006-01-02 15:04:05" ++ "\n"
    let (err, w) := os.WriteFile env w filePath content
    match err with
    | some e => fmt.Println ["Error creating new note:", e.Error] w
    | none =>
      let w := fmt.Println ["Created new note:", fileName] w
      openInEditor env filePath w

/-- `getNotes` of `main.go`. -/
def getNotes (env : Env) (w : World) : Except GoError (List String) × World :=
  let (r, w) := os.ReadDir env w (filepath.Join env.goos [notesDir])
  match r with
  | .error err => (.error err, w)
  | .ok files =>
    (.ok (files.foldl
      (fun notes file => if strings.HasSuffix file ".md" then notes ++ [file] else notes) []), w)

/-- `searchNotesWithFzf` of `main.go`. -/
def searchNotesWithFzf (env : Env) (w : World) : World :=
  let w := w.log (.call "searchNotesWithFzf")
  let (r, w) := getNotes env w
  match r with
  | .error err => fmt.Println ["Error retrieving notes:", err.Error] w
  | .ok notes =>
    if notes.length = 0 then fmt.Println ["No notes found."] w
    else
      let (r, w) := cmdOutput env w fzf
        [.text "--multi", .text "--preview",
         .text ("bat --style=plain --color=always " ++ notesDir ++ "/\x7b\x7d"),
         .text "--preview-window=right:70%"]
        (strings.Join notes "\n")
      match r with
      | .error err => fmt.Println ["Error with fzf:", err.Error] w
      | .ok output =>
        let selectedNote := strings.TrimSpace output
        if selectedNote ≠ "" then
          openInEditor env (filepath.Join env.goos [notesDir, selectedNote]) w
        else w

/-- `deleteNote` of `main.go`. -/
def deleteNote (env : Env) (w : World) : World :=
  let w := w.log (.call "deleteNote")
  let (r, w) := getNotes env w
  match r with
  | .error err => fmt.Println ["Error retrieving notes:", err.Error] w
  | .ok notes =>
    if notes.length = 0 then fmt.Println ["No notes found."] w
    else
      let (r, w) := cmdOutput env w fzf
        [.text "--prompt=Select a note to delete: ", .text "--multi"]
        (strings.Join notes "\n")
      match r with
      | .error err => fmt.Println ["Error with fzf:", err.Error] w
      | .ok output =>
        let selectedNote := strings.TrimSpace output
        if selectedNote ≠ "" then
          let filePath := filepath.Join env.goos [notesDir, selectedNote]
          let w := fmt.Print ("Are you sure you want to delete " ++ selectedNote ++ "? (y/n): ") w
          let (confirm, w) := scanText env w
          if confirm = "y" ∨ confirm = "Y" then
            let (err, w) := os.Remove env w filePath
            match err with
            | some e => fmt.Println ["Error deleting note:", e.Error] w
            | none => fmt.Println ["Deleted note:", selectedNote] w
          else fmt.Println ["Deletion cancelled."] w
        else w

/-- The `options` of `showFzfMenu`. -/
def options : List String :=
  ["Create a new note", "Search and open notes", "Delete a note", "Exit"]

/-- The arguments of the menu's selector command. -/
def menuArgs : List Arg :=
  [.text "--prompt=Select an option: ", .text "--height=10"]

/-- `showFzfMenu` of `main.go`: the pair `(continueLoop, err)` and the world. -/
def showFzfMenu (env : Env) (w : World) : (Bool × Option GoError) × World :=
  let (r, w) := cmdOutput env w fzf menuArgs (strings.Join options "\n")
  match r with
  | .error err => ((false, some err), w)
  | .ok output =>
    let choice := strings.TrimSpace output
    if choice = "Create a new note" then ((true, none), newNote env w)
    else if choice = "Search and open notes" then ((true, none), searchNotesWithFzf env w)
    else if choice = "Delete a note" then ((true, none), deleteNote env w)
    else if choice = "Exit" then ((false, none), w)
    else ((true, none), fmt.Println ["Invalid selection"] w)

/-- The states of the menu loop. -/
inductive LoopState
  | Running
  | Exiting
deriving DecidableEq, Repr

/-- The `for` loop of `main`, one environment per iteration. When the
environments run out the loop is still `Running`. -/
def mainLoop : List Env → World → LoopState × World
  | [], w => (.Running, w)
  | env :: rest, w =>
    match showFzfMenu env w with
    | ((_, some err), w) => (.Exiting, fmt.Println ["Error displaying menu:", err.Error] w)
    | ((continueLoop, none), w) =>
      if !continueLoop then (.Exiting, w) else mainLoop rest w

/-- `main` of `main.go`: bootstrap under `boot`, then the loop. Leaving the
loop ends the process with status 0. -/
def main (boot : Env) (iterations : List Env) (w : World) : Step :=
  match ensureNotesDir boot w with
  | .exit code w => .exit code w
  | .cont w =>
    match mainLoop iterations w with
    | (.Running, w) => .cont w
    | (.Exiting, w) => .exit 0 w

/-! ## Specification vocabulary -/

/-- The name ends in `.md`. -/
def EndsInMd (name : String) : Prop :=
  ∃ stem : String, name = stem ++ ".md"

/-- An entry with nothing below it: no entry, a regular file, or an empty
directory. -/
def Leaf : Option Node → Prop
  | some (.dir k) => k = .nil
  | _ => True

/-- The string has no path separator of the platform. -/
def NoSeparator (goos : GOOS) (s : String) : Prop :=
  ∀ c ∈ s.data, IsPathSeparator goos c = false

/-- The components of `notesDir`. -/
def notesPath : Path := ["E:", "Notes"]

/-- Where the notes directory is in storage. -/
def notesLoc (env : Env) : Location := locate env notesPath

/-- The file name `newNote` computes: the date of the first clock reading,
an underscore, the raw title, `.md`. -/
def noteFileName (env : Env) : String :=
  env.now₁.Format "2006-01-02" ++ "_" ++ env.line ++ ".md"

/-- The path `newNote` computes: `notesDir` joined with the file name. -/
def notePath (env : Env) : Path :=
  filepath.Join env.goos [notesDir, noteFileName env]

/-- Where the path `newNote` computes is in storage. -/
def noteLoc (env : Env) : Location := locate env (notePath env)

/-- The content `newNote` writes. -/
def noteContent (env : Env) : String :=
  "# " ++ env.line ++ "\n\nCreated: " ++ env.now₂.Format "2006-01-02 15:04:05" ++ "\n"

/-- The events of `newNote` up to and including `os.Stat`. -/
def newNoteEntry (env : Env) : List Event :=
  [.call "newNote", .print "Enter the note title: ", .scan env.line, .stat (notePath env)]

/-- What `openInEditor` prints after the editor session: the error of
`cmd.Run()`, if any. -/
def editorReport (env : Env) (p : Path) (fs : Forest) : List Event :=
  match (env.editorRun p fs).2 with
  | some e => [.print ("Error opening note: " ++ e.Error ++ "\n")]
  | none => []

/-- An editor session that leaves storage as it is and ends well. -/
def quietEditor : Path → Forest → Forest × Option GoError :=
  fun _ fs => (fs, none)

/-- A storage with the content `f` in the directory `/home/me`. -/
def inHome (f : Forest) : Forest :=
  .dir "home" (.dir "me" f .nil) .nil

/-- The environment of a user who types `todo` on a Unix machine, in the
working directory `/home/me`, on 2024-01-01 at 09:05:07, picks `2024-01-01_todo.md` in the selector and does
nothing in the editor; no system call fails for outside reasons. -/
def sampleEnv : Env where
  goos := .unix
  cwd := ["home", "me"]
  now₁ := ⟨2024, 1, 1, 9, 5, 7⟩
  now₂ := ⟨2024, 1, 1, 9, 5, 8⟩
  line := "todo"
  fzfOutput := fun _ _ => .ok "2024-01-01_todo.md\n"
  editorRun := quietEditor
  statFault := none
  readDirFault := none
  writeFault := none
  removeFault := none
  mkdirFault := none

/-- A storage whose notes directory holds one note and one other file. -/
def sampleStorage : Forest :=
  inHome (
  .dir "E:" (.dir "Notes"
      (.file "2023-12-31_old.md" "# old\n\nCreated: 2023-12-31 23:59:59\n"
        (.file "notes.txt" "plain" .nil)) .nil) .nil)

/-- The sample storage with an empty trace. -/
def sampleWorld : World := ⟨sampleStorage, []⟩

/-- The environment of a user who types the title `a/b`. -/
def slashEnv : Env := { sampleEnv with line := "a/b" }

/-- A storage whose notes directory holds one note and the directory
`2024-01-01_a`. -/
def slashStorage : Forest :=
  inHome (
  .dir "E:" (.dir "Notes"
      (.file "2023-12-31_old.md" "# old\n\nCreated: 2023-12-31 23:59:59\n"
        (.dir "2024-01-01_a" .nil .nil)) .nil) .nil)

/-- The arguments of the selector in `deleteNote`. -/
def deleteArgs : List Arg :=
  [.text "--prompt=Select a note to delete: ", .text "--multi"]

/-- The arguments of the selector in `searchNotesWithFzf`. -/
def searchArgs : List Arg :=
  [.text "--multi", .text "--preview",
   .text ("bat --style=plain --color=always " ++ notesDir ++ "/\x7b\x7d"),
   .text "--preview-window=right:70%"]

/-- The events of `deleteNote` up to and including the read of the
confirmation, for the note list `notes` and the selection `sel`. -/
def deleteAsk (env : Env) (notes : List String) (sel : String) : List Event :=
  [.call "deleteNote", .readDir notesPath,
   .run fzf deleteArgs (some (strings.Join notes "\n")),
   .print ("Are you sure you want to delete " ++ sel ++ "? (y/n): "),
   .scan env.line]

/-- The environment of the same user later on the same day. -/
def laterEnv : Env :=
  { sampleEnv with now₁ := ⟨2024, 1, 1, 17, 30, 0⟩, now₂ := ⟨2024, 1, 1, 17, 30, 1⟩ }

/-- A storage whose notes directory holds no note. -/
def noNotesStorage : Forest :=
  inHome (
  .dir "E:" (.dir "Notes" (.file "notes.txt" "plain" .nil) .nil) .nil)

/-- The environment of a user who confirms with `y` after picking the old
note in the selector. -/
def confirmEnv : Env :=
  { sampleEnv with line := "y", fzfOutput := fun _ _ => .ok "2023-12-31_old.md\n" }

/-- The environment of a user who answers `yes` instead. -/
def declineEnv : Env := { confirmEnv with line := "yes" }

/-- The world once `showFzfMenu` has put the menu to the selector. -/
def menuShown (w : World) : World :=
  ⟨w.fs, w.trace ++ [.run fzf menuArgs (some (strings.Join options "\n"))]⟩

/-- The environment of a user who picks `Exit` in the menu. -/
def exitEnv : Env := { sampleEnv with fzfOutput := fun _ _ => .ok "Exit\n" }

/-- The environment of a user who leaves the selector with the escape key. -/
def escapeEnv : Env :=
  { sampleEnv with fzfOutput := fun _ _ => .error (.other "exit status 130") }

/-- The environment of a selector that prints a line which is not an option. -/
def strangeEnv : Env := { sampleEnv with fzfOutput := fun _ _ => .ok "List notes\n" }

/-- The environment of a user who picks `Delete a note` in the menu, then the
old note, and confirms with `y`. -/
def menuDeleteEnv : Env :=
  { sampleEnv with
    line := "y"
    fzfOutput := fun args _ =>
      if args = menuArgs then .ok "Delete a note\n" else .ok "2023-12-31_old.md\n" }

/-- The environment of a user who marks both notes of `twoNotesStorage` in the
selector and confirms with `y`. -/
def multiEnv : Env :=
  { sampleEnv with
    line := "y"
    fzfOutput := fun _ _ => .ok "2023-12-31_old.md\n2024-01-01_todo.md\n" }

/-- A storage whose notes directory holds two notes. -/
def twoNotesStorage : Forest :=
  inHome (
  .dir "E:" (.dir "Notes"
      (.file "2023-12-31_old.md" "# old\n\nCreated: 2023-12-31 23:59:59\n"
        (.file "2024-01-01_todo.md" "# todo\n\nCreated: 2024-01-01 09:05:08\n" .nil)) .nil) .nil)

/-- The value of a string of decimal digits. -/
def decimalValue (s : String) : Nat :=
  s.data.foldl (fun acc c => 10 * acc + (c.toNat - 48)) 0

/-- The string is the decimal numeral of `value` written with exactly `width`
digits. -/
def IsDecimal (width value : Nat) (s : String) : Prop :=
  s.data.length = width ∧ (∀ c ∈ s.data, c.isDigit = true) ∧ decimalValue s = value

/-- A calendar time with a year of at most four digits. -/
def Time.wellFormed (t : Time) : Prop :=
  t.year ≤ 9999 ∧ 1 ≤ t.month ∧ t.month ≤ 12 ∧ 1 ≤ t.day ∧ t.day ≤ 31 ∧
  t.hour ≤ 23 ∧ t.minute ≤ 59 ∧ t.second ≤ 59

/-- The string is `YYYY-MM-DD` for the date of `t`. -/
def IsDate (t : Time) (s : String) : Prop :=
  ∃ y m d : String, s = y ++ "-" ++ m ++ "-" ++ d ∧
    IsDecimal 4 t.year y ∧ IsDecimal 2 t.month m ∧ IsDecimal 2 t.day d

/-- The string is `YYYY-MM-DD HH:MM:SS` for the time `t`. -/
def IsTimestamp (t : Time) (s : String) : Prop :=
  ∃ date h m sec : String, s = date ++ " " ++ h ++ ":" ++ m ++ ":" ++ sec ∧
    IsDate t date ∧ IsDecimal 2 t.hour h ∧ IsDecimal 2 t.minute m ∧ IsDecimal 2 t.second sec

/-- The environment of a user who types the title `../../../../../x`. -/
def dotsEnv : Env := { sampleEnv with line := "../../../../../x" }

/-- The environment of a user who picks the note ` x.md` (its name begins with
a space) in the selector and confirms with `y`. -/
def spaceEnv : Env :=
  { sampleEnv with line := "y", fzfOutput := fun _ _ => .ok " x.md\n" }

/-- A storage whose notes directory holds the notes ` x.md` and `x.md`. -/
def spaceStorage : Forest :=
  inHome (
  .dir "E:" (.dir "Notes"
      (.file " x.md" "picked" (.file "x.md" "other" .nil)) .nil) .nil)

/-- The environment of a user whose selector prints `../../../escape.txt`,
and who confirms with `y`. -/
def escapeDotsEnv : Env :=
  { sampleEnv with line := "y", fzfOutput := fun _ _ => .ok "../../../escape.txt\n" }

/-- The sample storage with a file `escape.txt` in `/home`. -/
def escapeStorage : Forest :=
  .dir "home" (.dir "me"
    (.dir "E:" (.dir "Notes"
        (.file "2023-12-31_old.md" "# old\n\nCreated: 2023-12-31 23:59:59\n" .nil) .nil) .nil)
    (.file "escape.txt" "outside" .nil)) .nil

/-! ## Lemmas on strings -/

theorem hasSuffix_iff (s t : String) :
    strings.HasSuffix s t = true ↔ ∃ stem : String, s = stem ++ t := by
  unfold strings.HasSuffix
  rw [List.isPrefixOf_iff_prefix, List.reverse_prefix]
  constructor
  · rintro ⟨l, hl⟩
    exact ⟨⟨l⟩, String.ext (by simpa using hl.symm)⟩
  · rintro ⟨stem, rfl⟩
    exact ⟨stem.data, by simp⟩

theorem hasSuffix_md_iff (name : String) :
    strings.HasSuffix name ".md" = true ↔ EndsInMd name :=
  hasSuffix_iff name ".md"

theorem foldl_append_filter (p : String → Bool) (files acc : List String) :
    files.foldl (fun notes file => if p file then notes ++ [file] else notes) acc
      = acc ++ files.filter p := by
  induction files generalizing acc with
  | nil => simp
  | cons f fs ih =>
    by_cases h : p f = true
    · simp [List.foldl, List.filter, h, ih]
    · simp [List.foldl, List.filter, h, ih]

/-! ## Lemmas on time formats -/

theorem digitChar_value : ∀ k : Nat, k < 10 →
    (Nat.digitChar k).toNat - 48 = k ∧ (Nat.digitChar k).isDigit = true := by
  decide

/-- The digits `Nat.toDigitsCore` puts in front of `ds` are the decimal
numeral of `n`, and they are at most `width` when `n < 10 ^ width`. -/
theorem toDigitsCore_spec : ∀ (fuel n : Nat) (ds : List Char), n < fuel →
    ∃ xs : List Char, Nat.toDigitsCore 10 fuel n ds = xs ++ ds ∧
      (∀ c ∈ xs, c.isDigit = true) ∧
      xs.foldl (fun acc c => 10 * acc + (c.toNat - 48)) 0 = n ∧
      (∀ width : Nat, 1 ≤ width → n < 10 ^ width → xs.length ≤ width) := by
  intro fuel
  induction fuel with
  | zero => intro n ds h; omega
  | succ fuel ih =>
    intro n ds hn
    have hd := digitChar_value (n % 10) (Nat.mod_lt _ (by decide))
    by_cases h0 : n / 10 = 0
    · refine ⟨[Nat.digitChar (n % 10)], ?_, ?_, ?_, ?_⟩
      · simp [Nat.toDigitsCore, h0]
      · intro c hc
        rw [List.mem_singleton.1 hc]
        exact hd.2
      · simp only [List.foldl]
        rw [hd.1]
        omega
      · intro width hw _
        simpa using hw
    · have hlt : n / 10 < fuel := by omega
      obtain ⟨xs, hxs, hdig, hval, hlen⟩ := ih (n / 10) (Nat.digitChar (n % 10) :: ds) hlt
      refine ⟨xs ++ [Nat.digitChar (n % 10)], ?_, ?_, ?_, ?_⟩
      · simp [Nat.toDigitsCore, h0, hxs]
      · intro c hc
        rcases List.mem_append.1 hc with hc | hc
        · exact hdig c hc
        · rw [List.mem_singleton.1 hc]
          exact hd.2
      · rw [List.foldl_append, hval]
        simp only [List.foldl]
        rw [hd.1]
        omega
      · intro width hw hpow
        have hw2 : 2 ≤ width := by
          by_contra hlt2
          have : width = 1 := by omega
          subst this
          simp at hpow
          omega
        have hpow' : n / 10 < 10 ^ (width - 1) := by
          have : 10 ^ width = 10 ^ (width - 1) * 10 := by
            rw [← Nat.pow_succ]
            congr 1
            omega
          rw [this] at hpow
          exact Nat.div_lt_of_lt_mul (by rw [Nat.mul_comm]; exact hpow)
        have := hlen (width - 1) (by omega) hpow'
        simp
        omega

theorem foldl_zeros (k : Nat) (xs : List Char) :
    (List.replicate k '0' ++ xs).foldl (fun acc c => 10 * acc + (c.toNat - 48)) 0
      = xs.foldl (fun acc c => 10 * acc + (c.toNat - 48)) 0 := by
  induction k with
  | zero => simp
  | succ k ih =>
    rw [List.replicate_succ, List.cons_append, List.foldl_cons]
    simpa using ih

/-- What `zeroPad` writes is the numeral of `n` in exactly `width` digits,
when `n` has no more digits than that. -/
theorem zeroPad_isDecimal (width n : Nat) (hw : 1 ≤ width) (hn : n < 10 ^ width) :
    IsDecimal width n (zeroPad width n) := by
  obtain ⟨xs, hxs, hdig, hval, hlen⟩ := toDigitsCore_spec (n + 1) n [] (Nat.lt_succ_self n)
  have hxs' : Nat.toDigits 10 n = xs := by
    simpa [Nat.toDigits] using hxs
  have hl := hlen width hw hn
  unfold IsDecimal zeroPad decimalValue
  simp only [hxs']
  refine ⟨?_, ?_, ?_⟩
  · simp
    omega
  · intro c hc
    rcases List.mem_append.1 hc with hc | hc
    · rw [(List.mem_replicate.1 hc).2]
      decide
    · exact hdig c hc
  · rw [foldl_zeros, hval]

theorem format_isDate (t : Time) (h : t.wellFormed) : IsDate t (t.Format "2006-01-02") := by
  obtain ⟨hy, _, hm, _, hd, _, _, _⟩ := h
  refine ⟨zeroPad 4 t.year, zeroPad 2 t.month, zeroPad 2 t.day, by simp [Time.Format],
    zeroPad_isDecimal 4 _ (by decide) (by omega),
    zeroPad_isDecimal 2 _ (by decide) (by omega),
    zeroPad_isDecimal 2 _ (by decide) (by omega)⟩

theorem format_isTimestamp (t : Time) (h : t.wellFormed) :
    IsTimestamp t (t.Format "2006-01-02 15:04:05") := by
  have hdate := format_isDate t h
  obtain ⟨_, _, _, _, _, hh, hmi, hs⟩ := h
  refine ⟨t.Format "2006-01-02", zeroPad 2 t.hour, zeroPad 2 t.minute, zeroPad 2 t.second,
    by simp [Time.Format], hdate,
    zeroPad_isDecimal 2 _ (by decide) (by omega),
    zeroPad_isDecimal 2 _ (by decide) (by omega),
    zeroPad_isDecimal 2 _ (by decide) (by omega)⟩

/-! ## Lemmas on storage -/

theorem get_put_same (f : Forest) (n : String) (v : Node) : (f.put n v).get n = some v := by
  induction f with
  | nil => cases v <;> simp [Forest.put, Node.entry, Forest.get]
  | file m c rest ih =>
    by_cases h : m = n
    · cases v <;> simp [Forest.put, Node.entry, Forest.get, h]
    · simp [Forest.put, Forest.get, h, ih]
  | dir m k rest _ ih =>
    by_cases h : m = n
    · cases v <;> simp [Forest.put, Node.entry, Forest.get, h]
    · simp [Forest.put, Forest.get, h, ih]

theorem get_put_ne (f : Forest) (n x : String) (v : Node) (hx : x ≠ n) :
    (f.put n v).get x = f.get x := by
  have hx' : ¬ n = x := fun h => hx h.symm
  induction f with
  | nil => cases v <;> simp [Forest.put, Node.entry, Forest.get, hx']
  | file m c rest ih =>
    by_cases h : m = n
    · subst h
      cases v <;> simp [Forest.put, Node.entry, Forest.get, hx']
    · by_cases h2 : m = x
      · subst h2
        simp [Forest.put, Forest.get, hx]
      · simp [Forest.put, Forest.get, h, h2, ih]
  | dir m k rest _ ih =>
    by_cases h : m = n
    · subst h
      cases v <;> simp [Forest.put, Node.entry, Forest.get, hx']
    · by_cases h2 : m = x
      · subst h2
        simp [Forest.put, Forest.get, hx]
      · simp [Forest.put, Forest.get, h, h2, ih]

theorem get_erase_same (f : Forest) (n : String) : (f.erase n).get n = none := by
  induction f with
  | nil => simp [Forest.erase, Forest.get]
  | file m c rest ih =>
    by_cases h : m = n
    · simp [Forest.erase, h, ih]
    · simp [Forest.erase, Forest.get, h, ih]
  | dir m k rest _ ih =>
    by_cases h : m = n
    · simp [Forest.erase, h, ih]
    · simp [Forest.erase, Forest.get, h, ih]

theorem get_erase_ne (f : Forest) (n x : String) (hx : x ≠ n) :
    (f.erase n).get x = f.get x := by
  induction f with
  | nil => simp [Forest.erase, Forest.get]
  | file m c rest ih =>
    by_cases h : m = n
    · subst h
      have : ¬ m = x := fun h => hx h.symm
      simp [Forest.erase, Forest.get, this, ih]
    · by_cases h2 : m = x
      · subst h2
        simp [Forest.erase, Forest.get, hx]
      · simp [Forest.erase, Forest.get, h, h2, ih]
  | dir m k rest _ ih =>
    by_cases h : m = n
    · subst h
      have : ¬ m = x := fun h => hx h.symm
      simp [Forest.erase, Forest.get, this, ih]
    · by_cases h2 : m = x
      · subst h2
        simp [Forest.erase, Forest.get, hx]
      · simp [Forest.erase, Forest.get, h, h2, ih]

theorem get_set_same (f : Forest) (n : String) (v : Option Node) : (f.set n v).get n = v := by
  cases v with
  | none => exact get_erase_same f n
  | some v => exact get_put_same f n v

theorem get_set_ne (f : Forest) (n x : String) (v : Option Node) (hx : x ≠ n) :
    (f.set n v).get x = f.get x := by
  cases v with
  | none => exact get_erase_ne f n x hx
  | some v => exact get_put_ne f n x v hx

theorem get_eq_none_iff (f : Forest) (n : String) : f.get n = none ↔ n ∉ f.names := by
  induction f with
  | nil => simp [Forest.get, Forest.names]
  | file m c rest ih =>
    by_cases h : m = n
    · simp [Forest.get, Forest.names, h]
    · have h' : ¬ n = m := fun e => h e.symm
      simp [Forest.get, Forest.names, h, h', ih]
  | dir m k rest _ ih =>
    by_cases h : m = n
    · simp [Forest.get, Forest.names, h]
    · have h' : ¬ n = m := fun e => h e.symm
      simp [Forest.get, Forest.names, h, h', ih]

theorem mem_names_of_get (f : Forest) (n : String) (v : Node) (h : f.get n = some v) :
    n ∈ f.names := by
  by_contra hn
  rw [(get_eq_none_iff f n).2 hn] at h
  cases h

theorem find_cons_congr (f f' : Forest) (x : String) (q : Location) (h : f'.get x = f.get x) :
    f'.find (x :: q) = f.find (x :: q) := by
  simp only [Forest.find, h]

theorem find_cons_dir (f k : Forest) (n : String) (q : Location) (h : f.get n = some (.dir k)) :
    f.find (n :: q) = k.find q := by
  simp only [Forest.find, h]

theorem view_cons_congr (f f' : Forest) (x : String) (q : Location) (h : f'.get x = f.get x) :
    f'.view (x :: q) = f.view (x :: q) := by
  simp only [Forest.view, find_cons_congr f f' x q h]

theorem view_cons_dir (f k : Forest) (n : String) (q : Location) (h : f.get n = some (.dir k)) :
    f.view (n :: q) = k.view q := by
  simp only [Forest.view, find_cons_dir f k n q h]

theorem view_nil (f : Forest) : f.view [] = .directory := rfl

theorem view_below_leaf (f : Forest) (n : String) (e : Option Node) (q : Location)
    (he : f.get n = e) (hleaf : Leaf e) (hq : q ≠ []) : f.view (n :: q) = .absent := by
  cases q with
  | nil => exact absurd rfl hq
  | cons x q =>
    cases e with
    | none => simp [Forest.view, Forest.find, he]
    | some v =>
      cases v with
      | file c => simp [Forest.view, Forest.find, he]
      | dir k =>
        have hk : k = .nil := hleaf
        subst hk
        simp [Forest.view, Forest.find, he, Forest.get]

theorem alter_single_ok (g : Option Node → Except GoError (Option Node)) (f f' : Forest)
    (n : String) (h : f.alter g [n] = .ok f') :
    ∃ new, g (f.get n) = .ok new ∧ f' = f.set n new := by
  simp only [Forest.alter] at h
  cases hgo : g (f.get n) with
  | error e => rw [hgo] at h; cases h
  | ok new =>
    rw [hgo] at h
    simp only [Except.map] at h
    cases h
    exact ⟨new, rfl, rfl⟩

theorem alter_cons_ok (g : Option Node → Except GoError (Option Node)) (f f' : Forest)
    (n m : String) (p : Location) (h : f.alter g (n :: m :: p) = .ok f') :
    ∃ k k', f.get n = some (.dir k) ∧ k.alter g (m :: p) = .ok k' ∧
      f' = f.put n (.dir k') := by
  simp only [Forest.alter] at h
  cases hget : f.get n with
  | none => simp only [hget] at h; cases h
  | some v =>
    cases v with
    | file c => simp only [hget] at h; cases h
    | dir k =>
      simp only [hget] at h
      cases hrec : Forest.alter g k (m :: p) with
      | error e => rw [hrec] at h; cases h
      | ok k' =>
        rw [hrec] at h
        simp only [Except.map] at h
        cases h
        exact ⟨k, k', rfl, hrec, rfl⟩

/-- Altering the entry at `p` leaves the observation at every other path as
it was, provided the entry has nothing below it before and after. -/
theorem view_alter_ne (g : Option Node → Except GoError (Option Node))
    (hg : ∀ old new, g old = .ok new → Leaf old ∧ Leaf new) :
    ∀ (p : Location) (f f' : Forest), f.alter g p = .ok f' →
      ∀ q : Location, q ≠ p → f'.view q = f.view q := by
  intro p
  induction p with
  | nil => intro f f' h; simp [Forest.alter] at h
  | cons n p ih =>
    intro f f' h q hq
    cases p with
    | nil =>
      obtain ⟨new, hgo, hf'⟩ := alter_single_ok g f f' n h
      subst hf'
      obtain ⟨hold, hnew⟩ := hg _ _ hgo
      cases q with
      | nil => rfl
      | cons x q =>
        by_cases hx : x = n
        · subst hx
          have hq' : q ≠ [] := fun e => hq (by rw [e])
          rw [view_below_leaf _ x new q (get_set_same f x new) hnew hq',
              view_below_leaf f x _ q rfl hold hq']
        · exact view_cons_congr _ _ x q (get_set_ne f n x new hx)
    | cons m p =>
      obtain ⟨k, k', hget, hrec, hf'⟩ := alter_cons_ok g f f' n m p h
      subst hf'
      cases q with
      | nil => rfl
      | cons x q =>
        by_cases hx : x = n
        · subst hx
          have hq' : q ≠ m :: p := fun e => hq (by rw [e])
          rw [view_cons_dir _ k' x q (get_put_same f x _),
              view_cons_dir f k x q hget]
          exact ih k k' hrec q hq'
        · exact view_cons_congr _ _ x q (get_put_ne f n x _ hx)

/-- Around a successful alteration: the path resolved to the entry `g` was
given, and resolves to what `g` returned. -/
theorem find_alter_same (g : Option Node → Except GoError (Option Node)) :
    ∀ (p : Location) (f f' : Forest), f.alter g p = .ok f' →
      ∃ old new, g old = .ok new ∧
        f.find p = (match old with | none => .error .notExist | some v => .ok v) ∧
        f'.find p = (match new with | none => .error .notExist | some v => .ok v) := by
  intro p
  induction p with
  | nil => intro f f' h; simp [Forest.alter] at h
  | cons n p ih =>
    intro f f' h
    cases p with
    | nil =>
      obtain ⟨new, hgo, hf'⟩ := alter_single_ok g f f' n h
      subst hf'
      refine ⟨_, new, hgo, ?_, ?_⟩
      · cases hget : f.get n with
        | none => simp [Forest.find, hget]
        | some v => cases v <;> simp [Forest.find, hget]
      · cases new with
        | none => simp [Forest.find, get_set_same]
        | some v => cases v <;> simp [Forest.find, get_set_same]
    | cons m p =>
      obtain ⟨k, k', hget, hrec, hf'⟩ := alter_cons_ok g f f' n m p h
      subst hf'
      obtain ⟨old, new, hgo, hold, hfind⟩ := ih k k' hrec
      exact ⟨old, new, hgo, by rw [find_cons_dir f k n _ hget, hold],
        by rw [find_cons_dir _ k' n _ (get_put_same f n _), hfind]⟩

/-! ## Lemmas on paths -/

theorem splitChars_noSep (p : Char → Bool) (cs cur : List Char)
    (h : ∀ c ∈ cs, p c = false) : splitChars p cur cs = [cur.reverse ++ cs] := by
  induction cs generalizing cur with
  | nil => simp [splitChars]
  | cons c cs ih =>
    have hc : p c = false := h c (List.mem_cons_self _ _)
    have hcs : ∀ x ∈ cs, p x = false := fun x hx => h x (List.mem_cons_of_mem _ hx)
    simp [splitChars, hc, ih (c :: cur) hcs]

theorem splitPath_noSep (goos : GOOS) (s : String) (h : NoSeparator goos s) :
    splitPath goos s = [s] := by
  unfold splitPath
  rw [splitChars_noSep _ _ _ h]
  simp

theorem splitPath_notesDir (goos : GOOS) : splitPath goos notesDir = ["E:", "Notes"] := by
  cases goos <;> decide

theorem join_notesDir (goos : GOOS) : filepath.Join goos [notesDir] = notesPath := by
  cases goos <;> decide

/-- Joining `notesDir` with a plain name appends the name as one component. -/
theorem join_notesDir_name (goos : GOOS) (name : String) (hsep : NoSeparator goos name)
    (h0 : name ≠ "") (h1 : name ≠ ".") (h2 : name ≠ "..") :
    filepath.Join goos [notesDir, name] = notesPath ++ [name] := by
  have hfilter : [notesDir, name].filter (fun e => decide (e ≠ "")) = [notesDir, name] := by
    simp [List.filter, h0, notesDir]
  unfold filepath.Join
  simp only [hfilter, List.flatMap_cons, List.flatMap_nil, List.append_nil, splitPath_notesDir,
    splitPath_noSep goos name hsep]
  cases goos with
  | unix => simp [cleanComponents, h0, h1, h2, notesPath]
  | windows =>
    have hdrive : isDriveName "E:" = true := by decide
    simp [cleanComponents, h0, h1, h2, notesPath, hdrive]

/-- Where a path one plain name below the notes directory is in storage. -/
theorem locate_notes_name (env : Env) (name : String) (h2 : name ≠ "..") :
    locate env (notesPath ++ [name]) = notesLoc env ++ [name] := by
  have hdrive : isDriveName "E:" = true := by decide
  cases hg : env.goos with
  | unix => simp [locate, notesLoc, notesPath, hg, stepInto, h2]
  | windows => simp [locate, notesLoc, notesPath, hg, stepInto, h2, hdrive]

/-- Where the notes directory is in storage: under the working directory on
Unix, on the drive `E:` on Windows. -/
theorem notesLoc_eq (env : Env) :
    (env.goos = GOOS.unix → notesLoc env = env.cwd ++ ["E:", "Notes"]) ∧
    (env.goos = GOOS.windows → notesLoc env = ["E:", "Notes"]) := by
  have hdrive : isDriveName "E:" = true := by decide
  constructor
  · intro hg
    simp [locate, notesLoc, notesPath, hg, stepInto]
  · intro hg
    simp [locate, notesLoc, notesPath, hg, stepInto, hdrive]

theorem locate_congr (env env' : Env) (hg : env'.goos = env.goos) (hc : env'.cwd = env.cwd)
    (p : Path) : locate env' p = locate env p := by
  unfold locate
  rw [hg, hc]

/-! ## Lemmas on system calls -/

@[simp] theorem log_fs (w : World) (e : Event) : (w.log e).fs = w.fs := rfl

@[simp] theorem log_trace (w : World) (e : Event) : (w.log e).trace = w.trace ++ [e] := rfl

theorem println_one (a : String) (w : World) :
    fmt.Println [a] w = w.log (.print (a ++ "\n")) := rfl

theorem println_two (a b : String) (w : World) :
    fmt.Println [a, b] w = w.log (.print (a ++ " " ++ b ++ "\n")) := rfl

theorem stat_error (env : Env) (w : World) (p : Path) (e : GoError)
    (hf : env.statFault = none) (h : w.fs.find (locate env p) = .error e) :
    os.Stat env w p = (some e, w.log (.stat p)) := by
  simp [os.Stat, hf, h]

theorem stat_ok (env : Env) (w : World) (p : Path) (v : Node)
    (hf : env.statFault = none) (h : w.fs.find (locate env p) = .ok v) :
    os.Stat env w p = (none, w.log (.stat p)) := by
  simp [os.Stat, hf, h]

theorem stat_fault (env : Env) (w : World) (p : Path) (msg : String)
    (hf : env.statFault = some msg) :
    os.Stat env w p = (some (.other msg), w.log (.stat p)) := by
  simp [os.Stat, hf]

theorem writeFile_ok (env : Env) (w : World) (p : Path) (data : String) (fs' : Forest)
    (hf : env.writeFault = none)
    (h : w.fs.alter (writeEntry data) (locate env p) = .ok fs') :
    os.WriteFile env w p data = (none, ⟨fs', w.trace ++ [.writeFile p data]⟩) := by
  simp [os.WriteFile, hf, h, World.log]

theorem find_error_of_alter_ok (g : Option Node → Except GoError (Option Node)) :
    ∀ (p : Location) (f f' : Forest) (e : GoError), f.alter g p = .ok f' →
      f.find p = .error e → e = .notExist := by
  intro p
  induction p with
  | nil => intro f f' e h; simp [Forest.alter] at h
  | cons n p ih =>
    intro f f' e h hfind
    cases p with
    | nil =>
      cases hget : f.get n with
      | none =>
        simp only [Forest.find, hget] at hfind
        cases hfind; rfl
      | some v =>
        cases v <;> simp [Forest.find, hget] at hfind
    | cons m p =>
      obtain ⟨k, k', hget, hrec, _⟩ := alter_cons_ok g f f' n m p h
      rw [find_cons_dir f k n _ hget] at hfind
      exact ih k k' e hrec hfind

theorem writeEntry_leaf (data : String) (old new : Option Node)
    (h : writeEntry data old = .ok new) : Leaf old ∧ Leaf new := by
  cases old with
  | none => simp only [writeEntry] at h; cases h; exact ⟨trivial, trivial⟩
  | some v =>
    cases v with
    | file c => simp only [writeEntry] at h; cases h; exact ⟨trivial, trivial⟩
    | dir k => simp [writeEntry] at h

theorem removeEntry_leaf (old new : Option Node)
    (h : removeEntry old = .ok new) : Leaf old ∧ Leaf new := by
  cases old with
  | none => simp [removeEntry] at h
  | some v =>
    cases v with
    | file c => simp only [removeEntry] at h; cases h; exact ⟨trivial, trivial⟩
    | dir k =>
      cases k with
      | nil => simp only [removeEntry] at h; cases h; exact ⟨rfl, trivial⟩
      | file _ _ _ => simp [removeEntry] at h
      | dir _ _ _ => simp [removeEntry] at h

theorem view_write_same (data : String) (p : Location) (f f' : Forest)
    (h : f.alter (writeEntry data) p = .ok f') : f'.view p = .regular data := by
  obtain ⟨old, new, hg, _, hfind⟩ := find_alter_same _ p f f' h
  have hnew : new = some (.file data) := by
    cases old with
    | none => simp only [writeEntry] at hg; cases hg; rfl
    | some v =>
      cases v with
      | file c => simp only [writeEntry] at hg; cases hg; rfl
      | dir k => simp [writeEntry] at hg
  subst hnew
  simp [Forest.view, hfind]

theorem view_remove_same (p : Location) (f f' : Forest)
    (h : f.alter removeEntry p = .ok f') : f'.view p = .absent := by
  obtain ⟨old, new, hg, _, hfind⟩ := find_alter_same _ p f f' h
  have hnew : new = none := by
    cases old with
    | none => simp [removeEntry] at hg
    | some v =>
      cases v with
      | file c => simp only [removeEntry] at hg; cases hg; rfl
      | dir k =>
        cases k with
        | nil => simp only [removeEntry] at hg; cases hg; rfl
        | file _ _ _ => simp [removeEntry] at hg
        | dir _ _ _ => simp [removeEntry] at hg
  subst hnew
  simp [Forest.view, hfind]

theorem view_before_remove (p : Location) (f f' : Forest)
    (h : f.alter removeEntry p = .ok f') : f.view p ≠ .absent := by
  obtain ⟨old, new, hg, hold, _⟩ := find_alter_same _ p f f' h
  cases old with
  | none => simp [removeEntry] at hg
  | some v => cases v <;> simp [Forest.view, hold]

theorem view_absent_iff (f : Forest) (p : Location) :
    f.view p = .absent ↔ ∃ e, f.find p = .error e := by
  unfold Forest.view
  cases h : f.find p with
  | error e => simp
  | ok v => cases v <;> simp

theorem writeFile_fst_none (env : Env) (w : World) (p : Path) (data : String)
    (h : (os.WriteFile env w p data).1 = none) :
    env.writeFault = none ∧
      ∃ fs', w.fs.alter (writeEntry data) (locate env p) = .ok fs' := by
  cases hfault : env.writeFault with
  | some msg => simp [os.WriteFile, hfault] at h
  | none =>
    cases halter : w.fs.alter (writeEntry data) (locate env p) with
    | error e' => simp [os.WriteFile, hfault, halter] at h
    | ok fs' => exact ⟨rfl, fs', rfl⟩

/-- The run of `newNote` when `os.Stat` finds nothing and the write succeeds. -/
theorem newNote_write (env : Env) (w : World) (fs' : Forest)
    (hstat : env.statFault = none)
    (habsent : w.fs.view (noteLoc env) = .absent)
    (hfault : env.writeFault = none)
    (halter : w.fs.alter (writeEntry (noteContent env)) (noteLoc env) = .ok fs') :
    newNote env w = openInEditor env (notePath env)
      ⟨fs', w.trace ++ newNoteEntry env ++
        [.writeFile (notePath env) (noteContent env),
         .print ("Created new note: " ++ noteFileName env ++ "\n")]⟩ := by
  obtain ⟨e, hfind⟩ := (view_absent_iff _ _).1 habsent
  have he : e = .notExist := find_error_of_alter_ok _ _ _ _ e halter hfind
  subst he
  have hS := stat_error env (World.log (World.log (World.log w (Event.call "newNote"))
      (Event.print "Enter the note title: ")) (Event.scan env.line)) (notePath env)
      .notExist hstat hfind
  have hW := writeFile_ok env (World.log (World.log (World.log (World.log w
      (Event.call "newNote")) (Event.print "Enter the note title: "))
      (Event.scan env.line)) (Event.stat (notePath env))) (notePath env) (noteContent env)
      fs' hfault halter
  simp only [notePath, noteFileName, noteContent] at hS hW
  simp only [newNote, scanText, fmt.Print, hS, hW, notePath, noteFileName, noteContent]
  simp [os.IsNotExist, println_two, World.log, newNoteEntry, notePath, noteFileName]

/-! ## C1: listing -/

theorem getNotes_eq (env : Env) (w : World) :
    getNotes env w =
      (match (os.ReadDir env w (filepath.Join env.goos [notesDir])).1 with
        | .error err => .error err
        | .ok files => .ok (files.filter (fun n => strings.HasSuffix n ".md")),
       (os.ReadDir env w (filepath.Join env.goos [notesDir])).2) := by
  unfold getNotes
  rcases h : os.ReadDir env w (filepath.Join env.goos [notesDir]) with ⟨r, w'⟩
  cases r with
  | error e => rfl
  | ok files => simp [foldl_append_filter]

/-- C1. Whatever sequence of entry names the read of the notes directory
yields, `getNotes` returns exactly its subsequence of names ending in `.md`:
every returned name ends in `.md`, every entry name ending in `.md` is
returned, the order of the read is kept, and a name such as `notes.txt` is
never returned. When the read fails, `getNotes` returns that error and no
list. -/
theorem getNotes_spec (env : Env) (w : World) :
    (∀ entries : List String,
      (os.ReadDir env w (filepath.Join env.goos [notesDir])).1 = .ok entries →
      ∃ notes : List String,
        (getNotes env w).1 = .ok notes ∧
        notes = entries.filter (fun n => strings.HasSuffix n ".md") ∧
        (∀ n ∈ notes, EndsInMd n) ∧
        (∀ n ∈ entries, EndsInMd n → n ∈ notes) ∧
        (∀ n ∈ notes, n ∈ entries) ∧
        notes.Sublist entries ∧
        "notes.txt" ∉ notes) ∧
    (∀ err : GoError,
      (os.ReadDir env w (filepath.Join env.goos [notesDir])).1 = .error err →
      (getNotes env w).1 = .error err) := by
  refine ⟨?_, ?_⟩
  · intro entries h
    refine ⟨_, by rw [getNotes_eq, h], rfl, ?_, ?_, ?_, List.filter_sublist _, ?_⟩
    · intro n hn
      exact (hasSuffix_md_iff n).1 (List.mem_filter.1 hn).2
    · intro n hn hmd
      exact List.mem_filter.2 ⟨hn, (hasSuffix_md_iff n).2 hmd⟩
    · intro n hn
      exact (List.mem_filter.1 hn).1
    · intro hn
      have := (List.mem_filter.1 hn).2
      revert this
      decide
  · intro err h
    rw [getNotes_eq, h]

/-- C1 at the sample storage: the read yields `2023-12-31_old.md` and
`notes.txt`, and `getNotes` returns the former only. -/
theorem getNotes_spec_witness :
    (os.ReadDir sampleEnv sampleWorld (filepath.Join sampleEnv.goos [notesDir])).1
      = .ok ["2023-12-31_old.md", "notes.txt"] ∧
    ∃ notes : List String,
      (getNotes sampleEnv sampleWorld).1 = .ok notes ∧
      notes = ["2023-12-31_old.md", "notes.txt"].filter (fun n => strings.HasSuffix n ".md") ∧
      (∀ n ∈ notes, EndsInMd n) ∧
      (∀ n ∈ ["2023-12-31_old.md", "notes.txt"], EndsInMd n → n ∈ notes) ∧
      (∀ n ∈ notes, n ∈ ["2023-12-31_old.md", "notes.txt"]) ∧
      notes.Sublist ["2023-12-31_old.md", "notes.txt"] ∧
      "notes.txt" ∉ notes :=
  ⟨rfl, (getNotes_spec sampleEnv sampleWorld).1 _ rfl⟩

/-! ## C3: creation -/

/-- C3. When nothing exists where the path of `<date>_T.md` leads, `os.Stat`
answers from storage and the write succeeds, `newNote` writes once and then
hands the path to the editor: the storage the editor is started on has the
new file with content `# T`, an empty line, `Created: ` and the timestamp,
each line ended by a newline, and every other place is as it was before. For
a calendar time the timestamp is `YYYY-MM-DD HH:MM:SS` of the second clock
reading and the name begins with `YYYY-MM-DD` of the first. -/
theorem newNote_creates (env : Env) (w : World)
    (hstat : env.statFault = none)
    (habsent : w.fs.view (noteLoc env) = .absent)
    (hwrite : (os.WriteFile env w (notePath env) (noteContent env)).1 = none) :
    ∃ fs' : Forest,
      newNote env w = openInEditor env (notePath env)
        ⟨fs', w.trace ++ newNoteEntry env ++
          [.writeFile (notePath env) (noteContent env),
           .print ("Created new note: " ++ noteFileName env ++ "\n")]⟩ ∧
      fs'.view (noteLoc env) =
        .regular ("# " ++ env.line ++ "\n\nCreated: " ++
          env.now₂.Format "2006-01-02 15:04:05" ++ "\n") ∧
      (env.now₂.wellFormed → IsTimestamp env.now₂ (env.now₂.Format "2006-01-02 15:04:05")) ∧
      notePath env = filepath.Join env.goos
        [notesDir, env.now₁.Format "2006-01-02" ++ "_" ++ env.line ++ ".md"] ∧
      (env.now₁.wellFormed → IsDate env.now₁ (env.now₁.Format "2006-01-02")) ∧
      (∀ q : Location, q ≠ noteLoc env → fs'.view q = w.fs.view q) := by
  obtain ⟨hfault, fs', halter⟩ := writeFile_fst_none _ _ _ _ hwrite
  exact ⟨fs', newNote_write env w fs' hstat habsent hfault halter,
    view_write_same _ _ _ _ halter, format_isTimestamp _, rfl, format_isDate _,
    view_alter_ne _ (writeEntry_leaf _) _ _ _ halter⟩

/-- C3 at the sample storage, in the working directory `/home/me` on Unix: the
title `todo` on 2024-01-01 gives `/home/me/E:/Notes/2024-01-01_todo.md`, and
the title `../../../../../x` gives the path `../x.md`, that is `/home/x.md`. -/
theorem newNote_creates_witness :
    (sampleEnv.statFault = none ∧
      noteLoc sampleEnv = ["home", "me", "E:", "Notes", "2024-01-01_todo.md"] ∧
      sampleWorld.fs.view (noteLoc sampleEnv) = .absent ∧
      (os.WriteFile sampleEnv sampleWorld (notePath sampleEnv) (noteContent sampleEnv)).1
        = none ∧
      "# " ++ sampleEnv.line ++ "\n\nCreated: " ++
          sampleEnv.now₂.Format "2006-01-02 15:04:05" ++ "\n"
        = "# todo\n\nCreated: 2024-01-01 09:05:08\n" ∧
      sampleEnv.now₂.wellFormed ∧
      IsTimestamp sampleEnv.now₂ "2024-01-01 09:05:08" ∧
      ∃ fs' : Forest,
        newNote sampleEnv sampleWorld = openInEditor sampleEnv (notePath sampleEnv)
          ⟨fs', sampleWorld.trace ++ newNoteEntry sampleEnv ++
            [.writeFile (notePath sampleEnv) (noteContent sampleEnv),
             .print ("Created new note: " ++ noteFileName sampleEnv ++ "\n")]⟩ ∧
        fs'.view (noteLoc sampleEnv) =
          .regular ("# " ++ sampleEnv.line ++ "\n\nCreated: " ++
            sampleEnv.now₂.Format "2006-01-02 15:04:05" ++ "\n") ∧
        (sampleEnv.now₂.wellFormed →
          IsTimestamp sampleEnv.now₂ (sampleEnv.now₂.Format "2006-01-02 15:04:05")) ∧
        notePath sampleEnv = filepath.Join sampleEnv.goos
          [notesDir, sampleEnv.now₁.Format "2006-01-02" ++ "_" ++ sampleEnv.line ++ ".md"] ∧
        (sampleEnv.now₁.wellFormed →
          IsDate sampleEnv.now₁ (sampleEnv.now₁.Format "2006-01-02")) ∧
        (∀ q : Location, q ≠ noteLoc sampleEnv → fs'.view q = sampleWorld.fs.view q)) ∧
    (notePath dotsEnv = ["..", "x.md"] ∧
      noteLoc dotsEnv = ["home", "x.md"] ∧
      sampleWorld.fs.view (noteLoc dotsEnv) = .absent ∧
      (os.WriteFile dotsEnv sampleWorld (notePath dotsEnv) (noteContent dotsEnv)).1 = none ∧
      ∃ fs' : Forest,
        newNote dotsEnv sampleWorld = openInEditor dotsEnv (notePath dotsEnv)
          ⟨fs', sampleWorld.trace ++ newNoteEntry dotsEnv ++
            [.writeFile (notePath dotsEnv) (noteContent dotsEnv),
             .print ("Created new note: " ++ noteFileName dotsEnv ++ "\n")]⟩ ∧
        fs'.view (noteLoc dotsEnv) =
          .regular ("# " ++ dotsEnv.line ++ "\n\nCreated: " ++
            dotsEnv.now₂.Format "2006-01-02 15:04:05" ++ "\n") ∧
        (dotsEnv.now₂.wellFormed →
          IsTimestamp dotsEnv.now₂ (dotsEnv.now₂.Format "2006-01-02 15:04:05")) ∧
        notePath dotsEnv = filepath.Join dotsEnv.goos
          [notesDir, dotsEnv.now₁.Format "2006-01-02" ++ "_" ++ dotsEnv.line ++ ".md"] ∧
        (dotsEnv.now₁.wellFormed →
          IsDate dotsEnv.now₁ (dotsEnv.now₁.Format "2006-01-02")) ∧
        (∀ q : Location, q ≠ noteLoc dotsEnv → fs'.view q = sampleWorld.fs.view q)) :=
  have hwf : sampleEnv.now₂.wellFormed := by
    unfold Time.wellFormed
    decide
  have hstamp : sampleEnv.now₂.Format "2006-01-02 15:04:05" = "2024-01-01 09:05:08" := by
    decide
  ⟨⟨rfl, by decide, by decide, by decide, by decide, hwf,
    (newNote_creates sampleEnv sampleWorld rfl (by decide) (by decide)).elim
      (fun _ h => hstamp ▸ h.2.2.1 hwf),
    newNote_creates sampleEnv sampleWorld rfl (by decide) (by decide)⟩,
   ⟨by decide, by decide, by decide, by decide,
    newNote_creates dotsEnv sampleWorld rfl (by decide) (by decide)⟩⟩

theorem openInEditor_eq (env : Env) (p : Path) (w : World) :
    openInEditor env p w =
      ⟨(env.editorRun p w.fs).1,
       w.trace ++ [.run editor [.path p] none] ++ editorReport env p w.fs⟩ := by
  unfold openInEditor editorReport
  cases h : (env.editorRun p (w.log (.run editor [.path p] none)).fs).2 with
  | none =>
    simp only [log_fs] at h
    simp [h, World.log]
  | some e =>
    simp only [log_fs] at h
    simp [h, World.log, println_two]

theorem format_date_eq (t u : Time) (hy : t.year = u.year) (hm : t.month = u.month)
    (hd : t.day = u.day) : t.Format "2006-01-02" = u.Format "2006-01-02" := by
  simp [Time.Format, hy, hm, hd]

/-! ## C4: creation does not overwrite -/

/-- C4. Let a first invocation run under `env₁` and a second one under `env₂`
of the same process (same platform, same working directory) with the same
title on the same date (the time of day is free). If the file `<date>_T.md`
exists when the second invocation starts, with whatever content `c` the first
invocation and the edits since have left, then the second invocation computes
the same path, leading to the same place, and writes nothing: up to the start
of the editor its events are the prompt, the read of the title, `os.Stat` and
the message `Note already exists`, the storage the editor is started on is
the storage it found (so the file still holds `c` and no file has been
added), and the editor is started on the path of that file. -/
theorem newNote_existing (env₁ env₂ : Env) (w : World) (c : String)
    (hgoos : env₂.goos = env₁.goos) (hcwd : env₂.cwd = env₁.cwd)
    (htitle : env₂.line = env₁.line)
    (hyear : env₂.now₁.year = env₁.now₁.year) (hmonth : env₂.now₁.month = env₁.now₁.month)
    (hday : env₂.now₁.day = env₁.now₁.day)
    (hfile : w.fs.view (noteLoc env₁) = .regular c) :
    notePath env₂ = notePath env₁ ∧
    noteLoc env₂ = noteLoc env₁ ∧
    newNote env₂ w = openInEditor env₂ (notePath env₁)
      ⟨w.fs, w.trace ++ newNoteEntry env₂ ++
        [.print ("Note already exists: " ++ noteFileName env₁ ++ "\n")]⟩ ∧
    (newNote env₂ w).trace = w.trace ++ newNoteEntry env₂ ++
        [.print ("Note already exists: " ++ noteFileName env₁ ++ "\n"),
         .run editor [.path (notePath env₁)] none] ++
        editorReport env₂ (notePath env₁) w.fs ∧
    (newNote env₂ w).fs = (env₂.editorRun (notePath env₁) w.fs).1 ∧
    (∀ (p : Path) (data : String), Event.writeFile p data ∉ eventsSince w (newNote env₂ w)) := by
  have hname : noteFileName env₂ = noteFileName env₁ := by
    simp only [noteFileName, htitle, format_date_eq _ _ hyear hmonth hday]
  have hpath : notePath env₂ = notePath env₁ := by
    simp only [notePath, hname, hgoos]
  have hloc : noteLoc env₂ = noteLoc env₁ := by
    simp only [noteLoc, hpath, locate_congr env₁ env₂ hgoos hcwd]
  have hmain : newNote env₂ w = openInEditor env₂ (notePath env₁)
      ⟨w.fs, w.trace ++ newNoteEntry env₂ ++
        [.print ("Note already exists: " ++ noteFileName env₁ ++ "\n")]⟩ := by
    rw [← hpath, ← hname]
    have hfind : ∃ v, w.fs.find (locate env₂ (notePath env₂)) = .ok v := by
      rw [← hloc] at hfile
      unfold Forest.view at hfile
      cases h : w.fs.find (noteLoc env₂) with
      | error e => rw [h] at hfile; cases hfile
      | ok v => exact ⟨v, h⟩
    obtain ⟨v, hfind⟩ := hfind
    have hS : ∃ r, os.IsNotExist env₂.goos r = false ∧
        os.Stat env₂ (World.log (World.log (World.log w (Event.call "newNote"))
          (Event.print "Enter the note title: ")) (Event.scan env₂.line)) (notePath env₂)
        = (r, World.log (World.log (World.log (World.log w (Event.call "newNote"))
          (Event.print "Enter the note title: ")) (Event.scan env₂.line))
          (Event.stat (notePath env₂))) := by
      cases hf : env₂.statFault with
      | some msg => exact ⟨some (.other msg), rfl, stat_fault _ _ _ msg hf⟩
      | none => exact ⟨none, rfl, stat_ok _ _ _ v hf hfind⟩
    obtain ⟨r, hr, hS⟩ := hS
    simp only [notePath, noteFileName] at hS
    simp only [newNote, scanText, fmt.Print, hS, notePath, noteFileName, hr]
    simp [println_two, World.log, newNoteEntry, notePath, noteFileName]
  refine ⟨hpath, hloc, hmain, ?_, ?_, ?_⟩
  · rw [hmain, openInEditor_eq]
    simp
  · rw [hmain, openInEditor_eq]
  · intro p data hmem
    rw [hmain, openInEditor_eq] at hmem
    simp only [eventsSince, List.append_assoc, List.drop_left] at hmem
    simp only [newNoteEntry, editorReport] at hmem
    cases h : (env₂.editorRun (notePath env₁) w.fs).2 <;> simp [h] at hmem

/-- C4 at the sample storage: `todo` is created at 09:05 and asked for again
at 17:30 of the same day; and so is `../../../../../x`, whose file is
`/home/x.md`. -/
theorem newNote_existing_witness :
    ((newNote sampleEnv sampleWorld).fs.view (noteLoc sampleEnv)
        = .regular "# todo\n\nCreated: 2024-01-01 09:05:08\n" ∧
      notePath laterEnv = notePath sampleEnv ∧
      noteLoc laterEnv = noteLoc sampleEnv ∧
      newNote laterEnv (newNote sampleEnv sampleWorld)
        = openInEditor laterEnv (notePath sampleEnv)
          ⟨(newNote sampleEnv sampleWorld).fs,
            (newNote sampleEnv sampleWorld).trace ++ newNoteEntry laterEnv ++
            [.print ("Note already exists: " ++ noteFileName sampleEnv ++ "\n")]⟩ ∧
      (newNote laterEnv (newNote sampleEnv sampleWorld)).trace =
        (newNote sampleEnv sampleWorld).trace ++ newNoteEntry laterEnv ++
          [.print ("Note already exists: " ++ noteFileName sampleEnv ++ "\n"),
           .run editor [.path (notePath sampleEnv)] none] ++
          editorReport laterEnv (notePath sampleEnv) (newNote sampleEnv sampleWorld).fs ∧
      (newNote laterEnv (newNote sampleEnv sampleWorld)).fs =
        (laterEnv.editorRun (notePath sampleEnv) (newNote sampleEnv sampleWorld).fs).1 ∧
      (∀ (p : Path) (data : String), Event.writeFile p data ∉
        eventsSince (newNote sampleEnv sampleWorld)
          (newNote laterEnv (newNote sampleEnv sampleWorld)))) ∧
    (noteLoc dotsEnv = ["home", "x.md"] ∧
      (newNote dotsEnv sampleWorld).fs.view (noteLoc dotsEnv)
        = .regular "# ../../../../../x\n\nCreated: 2024-01-01 09:05:08\n" ∧
      (∀ (p : Path) (data : String), Event.writeFile p data ∉
        eventsSince (newNote dotsEnv sampleWorld)
          (newNote dotsEnv (newNote dotsEnv sampleWorld)))) :=
  ⟨⟨by decide,
    newNote_existing sampleEnv laterEnv (newNote sampleEnv sampleWorld)
      "# todo\n\nCreated: 2024-01-01 09:05:08\n" rfl rfl rfl rfl rfl rfl (by decide)⟩,
   ⟨by decide, by decide,
    (newNote_existing dotsEnv dotsEnv (newNote dotsEnv sampleWorld)
      "# ../../../../../x\n\nCreated: 2024-01-01 09:05:08\n" rfl rfl rfl rfl rfl rfl
      (by decide)).2.2.2.2.2⟩⟩

/-! ## C5: creation, then listing -/

theorem digitChar_noSep (goos : GOOS) :
    ∀ d : Nat, d < 10 → IsPathSeparator goos (Nat.digitChar d) = false := by
  cases goos <;> decide

theorem toDigitsCore_noSep (goos : GOOS) :
    ∀ (fuel n : Nat) (ds : List Char), (∀ c ∈ ds, IsPathSeparator goos c = false) →
      ∀ c ∈ Nat.toDigitsCore 10 fuel n ds, IsPathSeparator goos c = false := by
  intro fuel
  induction fuel with
  | zero => intro n ds h c hc; exact h c (by simpa [Nat.toDigitsCore] using hc)
  | succ fuel ih =>
    intro n ds h c hc
    have hds : ∀ x ∈ Nat.digitChar (n % 10) :: ds, IsPathSeparator goos x = false := by
      intro x hx
      rcases List.mem_cons.1 hx with rfl | hx
      · exact digitChar_noSep goos _ (Nat.mod_lt _ (by decide))
      · exact h x hx
    simp only [Nat.toDigitsCore] at hc
    split at hc
    · exact hds c hc
    · exact ih _ _ hds c hc

theorem zeroPad_noSep (goos : GOOS) (width n : Nat) : NoSeparator goos (zeroPad width n) := by
  intro c hc
  simp only [zeroPad, List.mem_append, List.mem_replicate] at hc
  rcases hc with ⟨_, rfl⟩ | hc
  · cases goos <;> decide
  · exact toDigitsCore_noSep goos _ _ [] (by simp) c hc

theorem noSep_append (goos : GOOS) (a b : String) (ha : NoSeparator goos a)
    (hb : NoSeparator goos b) : NoSeparator goos (a ++ b) := by
  intro c hc
  rw [String.data_append, List.mem_append] at hc
  rcases hc with hc | hc
  · exact ha c hc
  · exact hb c hc

theorem literal_noSep (goos : GOOS) (s : String) (hs : s = "-" ∨ s = "_" ∨ s = ".md") :
    NoSeparator goos s := by
  unfold NoSeparator
  rcases hs with rfl | rfl | rfl <;> cases goos <;> decide

theorem formatDate_noSep (goos : GOOS) (t : Time) :
    NoSeparator goos (t.Format "2006-01-02") := by
  unfold Time.Format
  simp only [if_true]
  have hdash := literal_noSep goos "-" (Or.inl rfl)
  exact noSep_append _ _ _ (noSep_append _ _ _ (noSep_append _ _ _ (noSep_append _ _ _
    (zeroPad_noSep _ _ _) hdash) (zeroPad_noSep _ _ _)) hdash) (zeroPad_noSep _ _ _)

theorem noteFileName_noSep (env : Env) (h : NoSeparator env.goos env.line) :
    NoSeparator env.goos (noteFileName env) := by
  unfold noteFileName
  exact noSep_append _ _ _ (noSep_append _ _ _ (noSep_append _ _ _
    (formatDate_noSep _ _) (literal_noSep _ _ (Or.inr (Or.inl rfl)))) h)
    (literal_noSep _ _ (Or.inr (Or.inr rfl)))

theorem noteFileName_length (env : Env) : 4 ≤ (noteFileName env).length := by
  unfold noteFileName
  simp only [String.length_append]
  have : (".md" : String).length = 3 := by decide
  have : ("_" : String).length = 1 := by decide
  omega

theorem notePath_plain (env : Env) (h : NoSeparator env.goos env.line) :
    notePath env = notesPath ++ [noteFileName env] := by
  have hlen := noteFileName_length env
  have h0 : noteFileName env ≠ "" := by
    intro e; rw [e] at hlen; revert hlen; decide
  have h1 : noteFileName env ≠ "." := by
    intro e; rw [e] at hlen; revert hlen; decide
  have h2 : noteFileName env ≠ ".." := by
    intro e; rw [e] at hlen; revert hlen; decide
  exact join_notesDir_name env.goos _ (noteFileName_noSep env h) h0 h1 h2

/-- After a successful alteration at `d ++ [n]`, the directory `d` exists and
its entry `n` is what `g` returned. -/
theorem find_parent_alter (g : Option Node → Except GoError (Option Node)) (n : String) :
    ∀ (d : Location) (f f' : Forest), f.alter g (d ++ [n]) = .ok f' →
      ∃ k' old new, g old = .ok new ∧ f'.find d = .ok (.dir k') ∧ k'.get n = new := by
  intro d
  induction d with
  | nil =>
    intro f f' h
    obtain ⟨new, hg, hf'⟩ := alter_single_ok g f f' n h
    subst hf'
    exact ⟨_, _, new, hg, rfl, get_set_same f n new⟩
  | cons x d ih =>
    intro f f' h
    have hform : ∃ m p, d ++ [n] = m :: p := by
      cases d with
      | nil => exact ⟨n, [], rfl⟩
      | cons y d => exact ⟨y, d ++ [n], rfl⟩
    obtain ⟨m, p, hmp⟩ := hform
    rw [List.cons_append, hmp] at h
    obtain ⟨k, k', hget, hrec, hf'⟩ := alter_cons_ok g f f' x m p h
    subst hf'
    rw [← hmp] at hrec
    obtain ⟨k'', old, new, hg, hfind, hgetn⟩ := ih k k' hrec
    exact ⟨k'', old, new, hg, by rw [find_cons_dir _ k' x d (get_put_same f x _), hfind], hgetn⟩

theorem readDir_fst (env : Env) (w : World) (p : Path) (k : Forest)
    (hf : env.readDirFault = none) (h : w.fs.find (locate env p) = .ok (.dir k)) :
    (os.ReadDir env w p).1 = .ok k.names := by
  simp [os.ReadDir, hf, h]

theorem writeEntry_new (data : String) (old new : Option Node)
    (h : writeEntry data old = .ok new) : new = some (.file data) := by
  cases old with
  | none => simp only [writeEntry] at h; cases h; rfl
  | some v =>
    cases v with
    | file c => simp only [writeEntry] at h; cases h; rfl
    | dir k => simp [writeEntry] at h

/-- C5, as the code has it. For a title without a path separator: when
nothing exists where the path of the note leads, `os.Stat` answers from
storage, the write succeeds and the editor session leaves storage as it is,
the file name is the date (`YYYY-MM-DD` for a calendar time), `_`, the title
and `.md`, it is one component below the notes directory, and `getNotes`
right after `newNote` in the same process (its read of the directory not
failing) returns a list that contains exactly that name. -/
theorem newNote_then_getNotes (env env' : Env) (w : World)
    (hsep : NoSeparator env.goos env.line)
    (hstat : env.statFault = none)
    (habsent : w.fs.view (noteLoc env) = .absent)
    (hwrite : (os.WriteFile env w (notePath env) (noteContent env)).1 = none)
    (hquiet : ∀ fs : Forest, (env.editorRun (notePath env) fs).1 = fs)
    (hgoos : env'.goos = env.goos) (hcwd : env'.cwd = env.cwd)
    (hread : env'.readDirFault = none) :
    noteFileName env = env.now₁.Format "2006-01-02" ++ "_" ++ env.line ++ ".md" ∧
    (env.now₁.wellFormed → IsDate env.now₁ (env.now₁.Format "2006-01-02")) ∧
    notePath env = notesPath ++ [noteFileName env] ∧
    noteLoc env = notesLoc env ++ [noteFileName env] ∧
    ∃ notes : List String,
      (getNotes env' (newNote env w)).1 = .ok notes ∧ noteFileName env ∈ notes := by
  have hpath := notePath_plain env hsep
  have hne : noteFileName env ≠ ".." := by
    intro e
    have hlen := noteFileName_length env
    rw [e] at hlen
    revert hlen
    decide
  have hloc : noteLoc env = notesLoc env ++ [noteFileName env] := by
    rw [noteLoc, hpath, locate_notes_name env _ hne]
  refine ⟨rfl, format_isDate _, hpath, hloc, ?_⟩
  obtain ⟨hfault, fs', halter⟩ := writeFile_fst_none _ _ _ _ hwrite
  have hnew := newNote_write env w fs' hstat habsent hfault halter
  have halter' : w.fs.alter (writeEntry (noteContent env)) (notesLoc env ++ [noteFileName env])
      = .ok fs' := by
    rw [← hloc]
    exact halter
  obtain ⟨k', old, new, hg, hfind, hget⟩ := find_parent_alter _ _ _ _ _ halter'
  have hnew' := writeEntry_new _ _ _ hg
  subst hnew'
  have hfs : (newNote env w).fs = fs' := by
    rw [hnew, openInEditor_eq]
    exact hquiet fs'
  have hmem : noteFileName env ∈ k'.names := mem_names_of_get _ _ _ hget
  have hrd : (os.ReadDir env' (newNote env w) (filepath.Join env'.goos [notesDir])).1
      = .ok k'.names := by
    rw [join_notesDir]
    refine readDir_fst env' _ _ k' hread ?_
    rw [hfs, locate_congr env env' hgoos hcwd]
    exact hfind
  refine ⟨_, by rw [getNotes_eq, hrd], ?_⟩
  exact List.mem_filter.2 ⟨hmem, (hasSuffix_md_iff _).2 ⟨_, rfl⟩⟩

/-- C5, as the code has it, at the sample storage: after `todo` is created
the listing contains `2024-01-01_todo.md`. -/
theorem newNote_then_getNotes_witness :
    NoSeparator sampleEnv.goos sampleEnv.line ∧
    sampleWorld.fs.view (noteLoc sampleEnv) = .absent ∧
    (os.WriteFile sampleEnv sampleWorld (notePath sampleEnv) (noteContent sampleEnv)).1 = none ∧
    noteFileName sampleEnv = "2024-01-01_todo.md" ∧
    (sampleEnv.now₁.wellFormed → IsDate sampleEnv.now₁ (sampleEnv.now₁.Format "2006-01-02")) ∧
    notePath sampleEnv = notesPath ++ [noteFileName sampleEnv] ∧
    noteLoc sampleEnv = notesLoc sampleEnv ++ [noteFileName sampleEnv] ∧
    ∃ notes : List String,
      (getNotes sampleEnv (newNote sampleEnv sampleWorld)).1 = .ok notes ∧
      noteFileName sampleEnv ∈ notes :=
  have hsep : NoSeparator sampleEnv.goos sampleEnv.line := by
    unfold NoSeparator
    decide
  ⟨hsep, by decide, by decide, by decide,
   (newNote_then_getNotes sampleEnv sampleEnv sampleWorld hsep rfl (by decide) (by decide)
     (fun _ => rfl) rfl rfl rfl).2⟩

/-- C5 fails as stated. On 2024-01-01 the title `a/b` gives the file name
`2024-01-01_a/b.md`; with a directory `2024-01-01_a` in the notes directory
the write succeeds, one level further down, and `getNotes` right afterwards
returns `2023-12-31_old.md` only. -/
theorem newNote_then_getNotes_slash :
    noteFileName slashEnv = "2024-01-01_a/b.md" ∧
    notePath slashEnv = ["E:", "Notes", "2024-01-01_a", "b.md"] ∧
    (os.WriteFile slashEnv ⟨slashStorage, []⟩ (notePath slashEnv) (noteContent slashEnv)).1
      = none ∧
    (newNote slashEnv ⟨slashStorage, []⟩).fs.view
        ["home", "me", "E:", "Notes", "2024-01-01_a", "b.md"]
      = .regular "# a/b\n\nCreated: 2024-01-01 09:05:08\n" ∧
    (getNotes slashEnv (newNote slashEnv ⟨slashStorage, []⟩)).1 = .ok ["2023-12-31_old.md"] ∧
    noteFileName slashEnv ∉ ["2023-12-31_old.md"] := by
  refine ⟨by decide, by decide, by decide, by decide, rfl, by decide⟩

/-! ## Lemmas on `getNotes`, `os.Remove` and the runs of `deleteNote` -/

theorem eventsSince_append (w : World) (fs : Forest) (l : List Event) :
    eventsSince w ⟨fs, w.trace ++ l⟩ = l := by
  simp [eventsSince]

theorem getNotes_log (env : Env) (w : World) (e : Event) :
    getNotes env (w.log e) = ((getNotes env w).1, (w.log e).log (.readDir notesPath)) := by
  rw [getNotes_eq, getNotes_eq, join_notesDir]
  simp only [os.ReadDir, log_fs]
  cases env.readDirFault with
  | some msg => rfl
  | none =>
    cases w.fs.find (locate env notesPath) with
    | error e => rfl
    | ok v => cases v <;> rfl

theorem remove_error (env : Env) (w₀ w : World) (p : Path) (e : GoError)
    (h : (os.Remove env w₀ p).1 = some e) (hfs : w.fs = w₀.fs) :
    os.Remove env w p = (some e, w.log (.remove p)) := by
  unfold os.Remove at h ⊢
  rw [hfs]
  cases hf : env.removeFault with
  | some msg => simp only [hf] at h ⊢; cases h; rfl
  | none =>
    simp only [hf] at h ⊢
    cases ha : w₀.fs.alter removeEntry (locate env p) with
    | error e' => simp only [ha] at h ⊢; cases h; rfl
    | ok fs' => simp [ha] at h

theorem remove_fst_none (env : Env) (w₀ : World) (p : Path)
    (h : (os.Remove env w₀ p).1 = none) :
    env.removeFault = none ∧ ∃ fs', w₀.fs.alter removeEntry (locate env p) = .ok fs' := by
  unfold os.Remove at h
  cases hf : env.removeFault with
  | some msg => simp [hf] at h
  | none =>
    simp only [hf] at h
    cases ha : w₀.fs.alter removeEntry (locate env p) with
    | error e' => simp [ha] at h
    | ok fs' => exact ⟨rfl, fs', rfl⟩

theorem remove_ok (env : Env) (w : World) (p : Path) (fs' : Forest)
    (hf : env.removeFault = none) (h : w.fs.alter removeEntry (locate env p) = .ok fs') :
    os.Remove env w p = (none, ⟨fs', w.trace ++ [.remove p]⟩) := by
  simp [os.Remove, hf, h, World.log]

theorem deleteNote_readError (env : Env) (w : World) (err : GoError)
    (h : (getNotes env w).1 = .error err) :
    deleteNote env w = ⟨w.fs, w.trace ++ [.call "deleteNote", .readDir notesPath,
      .print ("Error retrieving notes: " ++ err.Error ++ "\n")]⟩ := by
  simp only [deleteNote, getNotes_log, h]
  simp [println_two, World.log]

theorem deleteNote_noNotes (env : Env) (w : World)
    (h : (getNotes env w).1 = .ok []) :
    deleteNote env w = ⟨w.fs, w.trace ++ [.call "deleteNote", .readDir notesPath,
      .print "No notes found.\n"]⟩ := by
  simp only [deleteNote, getNotes_log, h]
  simp [println_one, World.log]

theorem deleteNote_fzfError (env : Env) (w : World) (notes : List String) (err : GoError)
    (h : (getNotes env w).1 = .ok notes) (hne : notes ≠ [])
    (hfzf : env.fzfOutput deleteArgs (strings.Join notes "\n") = .error err) :
    deleteNote env w = ⟨w.fs, w.trace ++ [.call "deleteNote", .readDir notesPath,
      .run fzf deleteArgs (some (strings.Join notes "\n")),
      .print ("Error with fzf: " ++ err.Error ++ "\n")]⟩ := by
  simp only [deleteArgs] at hfzf
  simp only [deleteNote, getNotes_log, h, cmdOutput, hfzf]
  simp [hne, println_two, World.log, deleteArgs]

theorem deleteNote_noSelection (env : Env) (w : World) (notes : List String) (out : String)
    (h : (getNotes env w).1 = .ok notes) (hne : notes ≠ [])
    (hfzf : env.fzfOutput deleteArgs (strings.Join notes "\n") = .ok out)
    (hsel : strings.TrimSpace out = "") :
    deleteNote env w = ⟨w.fs, w.trace ++ [.call "deleteNote", .readDir notesPath,
      .run fzf deleteArgs (some (strings.Join notes "\n"))]⟩ := by
  simp only [deleteArgs] at hfzf
  simp only [deleteNote, getNotes_log, h, cmdOutput, hfzf]
  simp [hne, hsel, World.log, deleteArgs]

theorem deleteNote_cancelled (env : Env) (w : World) (notes : List String) (out : String)
    (h : (getNotes env w).1 = .ok notes) (hne : notes ≠ [])
    (hfzf : env.fzfOutput deleteArgs (strings.Join notes "\n") = .ok out)
    (hsel : strings.TrimSpace out ≠ "")
    (hno : ¬ (env.line = "y" ∨ env.line = "Y")) :
    deleteNote env w = ⟨w.fs, w.trace ++ deleteAsk env notes (strings.TrimSpace out) ++
      [.print "Deletion cancelled.\n"]⟩ := by
  simp only [deleteArgs] at hfzf
  simp only [deleteNote, getNotes_log, h, cmdOutput, hfzf, scanText, fmt.Print]
  simp [hne, hsel, hno, println_one, World.log, deleteArgs, deleteAsk]

theorem deleteNote_removeError (env : Env) (w : World) (notes : List String) (out : String)
    (e : GoError)
    (h : (getNotes env w).1 = .ok notes) (hne : notes ≠ [])
    (hfzf : env.fzfOutput deleteArgs (strings.Join notes "\n") = .ok out)
    (hsel : strings.TrimSpace out ≠ "")
    (hyes : env.line = "y" ∨ env.line = "Y")
    (hrm : (os.Remove env w (filepath.Join env.goos [notesDir, strings.TrimSpace out])).1
      = some e) :
    deleteNote env w = ⟨w.fs, w.trace ++ deleteAsk env notes (strings.TrimSpace out) ++
      [.remove (filepath.Join env.goos [notesDir, strings.TrimSpace out]),
       .print ("Error deleting note: " ++ e.Error ++ "\n")]⟩ := by
  simp only [deleteArgs] at hfzf
  simp only [deleteNote, getNotes_log, h, cmdOutput, hfzf, scanText, fmt.Print]
  rw [remove_error env w _ _ e hrm (by simp)]
  simp [hne, hsel, hyes, println_two, World.log, deleteArgs, deleteAsk]

theorem deleteNote_removed (env : Env) (w : World) (notes : List String) (out : String)
    (fs' : Forest)
    (h : (getNotes env w).1 = .ok notes) (hne : notes ≠ [])
    (hfzf : env.fzfOutput deleteArgs (strings.Join notes "\n") = .ok out)
    (hsel : strings.TrimSpace out ≠ "")
    (hyes : env.line = "y" ∨ env.line = "Y")
    (hf : env.removeFault = none)
    (hrm : w.fs.alter removeEntry
      (locate env (filepath.Join env.goos [notesDir, strings.TrimSpace out])) = .ok fs') :
    deleteNote env w = ⟨fs', w.trace ++ deleteAsk env notes (strings.TrimSpace out) ++
      [.remove (filepath.Join env.goos [notesDir, strings.TrimSpace out]),
       .print ("Deleted note: " ++ strings.TrimSpace out ++ "\n")]⟩ := by
  simp only [deleteArgs] at hfzf
  simp only [deleteNote, getNotes_log, h, cmdOutput, hfzf, scanText, fmt.Print]
  rw [remove_ok env _ _ fs' hf (by simpa using hrm)]
  simp [hne, hsel, hyes, println_two, World.log, deleteArgs, deleteAsk]

theorem readDir_ok_inv (env : Env) (w : World) (p : Path) (entries : List String)
    (h : (os.ReadDir env w p).1 = .ok entries) :
    env.readDirFault = none ∧
      ∃ kids, w.fs.find (locate env p) = .ok (.dir kids) ∧ entries = kids.names := by
  unfold os.ReadDir at h
  cases hf : env.readDirFault with
  | some msg => simp [hf] at h
  | none =>
    simp only [hf] at h
    cases hfind : w.fs.find (locate env p) with
    | error e => simp [hfind] at h
    | ok v =>
      cases v with
      | file c => simp [hfind] at h
      | dir k =>
        simp only [hfind] at h
        cases h
        exact ⟨rfl, k, rfl, rfl⟩

theorem getNotes_ok_inv (env : Env) (w : World) (notes : List String)
    (h : (getNotes env w).1 = .ok notes) :
    env.readDirFault = none ∧ ∃ kids, w.fs.find (notesLoc env) = .ok (.dir kids) ∧
      notes = kids.names.filter (fun n => strings.HasSuffix n ".md") := by
  rw [getNotes_eq, join_notesDir] at h
  cases hr : (os.ReadDir env w notesPath).1 with
  | error e => simp [hr] at h
  | ok entries =>
    simp only [hr] at h
    cases h
    obtain ⟨hf, kids, hfind, rfl⟩ := readDir_ok_inv env w _ _ hr
    exact ⟨hf, kids, hfind, rfl⟩

theorem endsInMd_data (n : String) (h : EndsInMd n) :
    ∃ stem : List Char, n.data = stem ++ ['.', 'm', 'd'] := by
  obtain ⟨stem, rfl⟩ := h
  exact ⟨stem.data, by simp⟩

theorem endsInMd_plain (n : String) (h : EndsInMd n) :
    n ≠ "" ∧ n ≠ "." ∧ n ≠ ".." := by
  obtain ⟨stem, hstem⟩ := endsInMd_data n h
  have hlen : 3 ≤ n.data.length := by
    rw [hstem]
    simp
  refine ⟨?_, ?_, ?_⟩ <;>
  · intro e
    rw [e] at hlen
    revert hlen
    decide

/-! ## C2: deletion -/

theorem dropWhile_spaces (p : Char → Bool) (y : Char) (l : List Char) (hy : p y = false) :
    ∀ ws : List Char, (∀ c ∈ ws, p c = true) → (ws ++ y :: l).dropWhile p = y :: l := by
  intro ws
  induction ws with
  | nil => intro _; simp [List.dropWhile, hy]
  | cons a ws ih =>
    intro h
    have ha : p a = true := h a (List.mem_cons_self _ _)
    simp only [List.cons_append, List.dropWhile, ha]
    exact ih (fun c hc => h c (List.mem_cons_of_mem _ hc))

/-- Trimming gives back a name ending in `.md` that does not begin with white
space, whatever white space follows it. -/
theorem trimSpace_name (n tail : String) (hmd : EndsInMd n)
    (hfirst : ∀ c ∈ n.data.head?, unicode.IsSpace c = false)
    (htail : ∀ c ∈ tail.data, unicode.IsSpace c = true) :
    strings.TrimSpace (n ++ tail) = n := by
  obtain ⟨stem, hstem⟩ := hmd
  have hdata : n.data = stem.data ++ ['.', 'm', 'd'] := by
    rw [hstem]
    simp
  have hdrop : (n ++ tail).data.dropWhile unicode.IsSpace = n.data ++ tail.data := by
    rw [String.data_append]
    cases hn : n.data with
    | nil => rw [hn] at hdata; simp at hdata
    | cons x r =>
      have hx : unicode.IsSpace x = false := hfirst x (by simp [hn])
      simp [List.dropWhile, hx]
  have hrev : (n.data ++ tail.data).reverse
      = tail.data.reverse ++ 'd' :: ('m' :: '.' :: stem.data.reverse) := by
    rw [hdata]
    simp
  apply String.ext
  unfold strings.TrimSpace
  simp only [hdrop, hrev]
  rw [dropWhile_spaces unicode.IsSpace 'd' _ (by decide) tail.data.reverse
    (fun c hc => htail c (List.mem_reverse.1 hc))]
  rw [hdata]
  simp

/-- C2, as the code has it. With `c` the confirmation line read from standard
input: when `c` is neither `y` nor `Y`, `deleteNote` leaves storage as it is
and attempts no removal. When the note list is not empty, the selector output
trimmed of surrounding white space is not empty, `c` is `y` or `Y` and the
removal succeeds, then something existed where `notesDir` joined with the
trimmed output leads, nothing exists there afterwards, every other place is
observed as before, and the events of the run are the listing, the selector,
the prompt, the read of `c`, one `os.Remove` of that path and the message
`Deleted note`. When the output is one listed note whose name has no path
separator and does not begin with white space, followed by white space only,
that place is the entry of this note in the notes directory. -/
theorem deleteNote_spec (env : Env) (w : World) :
    (¬ (env.line = "y" ∨ env.line = "Y") →
      (deleteNote env w).fs = w.fs ∧
      ∀ p : Path, Event.remove p ∉ eventsSince w (deleteNote env w)) ∧
    (∀ (notes : List String) (out : String),
      (getNotes env w).1 = .ok notes → notes ≠ [] →
      env.fzfOutput deleteArgs (strings.Join notes "\n") = .ok out →
      strings.TrimSpace out ≠ "" →
      (env.line = "y" ∨ env.line = "Y") →
      (os.Remove env w (filepath.Join env.goos [notesDir, strings.TrimSpace out])).1 = none →
      w.fs.view (locate env (filepath.Join env.goos [notesDir, strings.TrimSpace out]))
        ≠ .absent ∧
      (deleteNote env w).fs.view
          (locate env (filepath.Join env.goos [notesDir, strings.TrimSpace out]))
        = .absent ∧
      (∀ q : Location,
        q ≠ locate env (filepath.Join env.goos [notesDir, strings.TrimSpace out]) →
        (deleteNote env w).fs.view q = w.fs.view q) ∧
      eventsSince w (deleteNote env w) = deleteAsk env notes (strings.TrimSpace out) ++
        [.remove (filepath.Join env.goos [notesDir, strings.TrimSpace out]),
         .print ("Deleted note: " ++ strings.TrimSpace out ++ "\n")]) ∧
    (∀ (notes : List String) (n tail : String),
      (getNotes env w).1 = .ok notes → n ∈ notes →
      NoSeparator env.goos n →
      (∀ c ∈ n.data.head?, unicode.IsSpace c = false) →
      (∀ c ∈ tail.data, unicode.IsSpace c = true) →
      strings.TrimSpace (n ++ tail) = n ∧
      filepath.Join env.goos [notesDir, strings.TrimSpace (n ++ tail)] = notesPath ++ [n] ∧
      locate env (filepath.Join env.goos [notesDir, strings.TrimSpace (n ++ tail)])
        = notesLoc env ++ [n]) := by
  refine ⟨?_, ?_, ?_⟩
  · intro hno
    cases h : (getNotes env w).1 with
    | error err =>
      rw [deleteNote_readError env w err h]
      exact ⟨rfl, fun p hp => by simp [eventsSince] at hp⟩
    | ok notes =>
      by_cases hne : notes = []
      · subst hne
        rw [deleteNote_noNotes env w h]
        exact ⟨rfl, fun p hp => by simp [eventsSince] at hp⟩
      · cases hfzf : env.fzfOutput deleteArgs (strings.Join notes "\n") with
        | error err =>
          rw [deleteNote_fzfError env w notes err h hne hfzf]
          exact ⟨rfl, fun p hp => by simp [eventsSince] at hp⟩
        | ok out =>
          by_cases hsel : strings.TrimSpace out = ""
          · rw [deleteNote_noSelection env w notes out h hne hfzf hsel]
            exact ⟨rfl, fun p hp => by simp [eventsSince] at hp⟩
          · rw [deleteNote_cancelled env w notes out h hne hfzf hsel hno]
            exact ⟨rfl, fun p hp => by simp [eventsSince, deleteAsk] at hp⟩
  · intro notes out h hne hfzf hsel hyes hrm
    obtain ⟨hf, fs', halter⟩ := remove_fst_none env w _ hrm
    rw [deleteNote_removed env w notes out fs' h hne hfzf hsel hyes hf halter]
    refine ⟨view_before_remove _ _ _ halter, view_remove_same _ _ _ halter,
      view_alter_ne _ removeEntry_leaf _ _ _ halter, ?_⟩
    rw [List.append_assoc, eventsSince_append]
  · intro notes n tail h hn hsep hfirst htail
    obtain ⟨_, kids, _, hnotes⟩ := getNotes_ok_inv env w notes h
    have hmd : EndsInMd n := by
      rw [hnotes] at hn
      exact (hasSuffix_md_iff n).1 (List.mem_filter.1 hn).2
    have htrim := trimSpace_name n tail hmd hfirst htail
    obtain ⟨h0, h1, h2⟩ := endsInMd_plain n hmd
    have hjoin := join_notesDir_name env.goos n hsep h0 h1 h2
    refine ⟨htrim, by rw [htrim, hjoin], ?_⟩
    rw [htrim, hjoin, locate_notes_name env n h2]

/-- C2, as the code has it, at the sample storage: the answer `yes` removes
nothing, the answer `y` removes `2023-12-31_old.md` from the notes directory
and nothing else; and with the selector output `../../../escape.txt` the
answer `y` removes `/home/escape.txt`, where the path `../escape.txt` leads. -/
theorem deleteNote_spec_witness :
    (¬ (declineEnv.line = "y" ∨ declineEnv.line = "Y") ∧
      (deleteNote declineEnv sampleWorld).fs = sampleWorld.fs ∧
      ∀ p : Path, Event.remove p ∉ eventsSince sampleWorld (deleteNote declineEnv sampleWorld)) ∧
    ((getNotes confirmEnv sampleWorld).1 = .ok ["2023-12-31_old.md"] ∧
      confirmEnv.fzfOutput deleteArgs (strings.Join ["2023-12-31_old.md"] "\n")
        = .ok "2023-12-31_old.md\n" ∧
      locate confirmEnv
          (filepath.Join confirmEnv.goos [notesDir, strings.TrimSpace "2023-12-31_old.md\n"])
        = ["home", "me", "E:", "Notes", "2023-12-31_old.md"] ∧
      (confirmEnv.line = "y" ∨ confirmEnv.line = "Y") ∧
      (os.Remove confirmEnv sampleWorld
        (filepath.Join confirmEnv.goos [notesDir, strings.TrimSpace "2023-12-31_old.md\n"])).1
        = none ∧
      sampleWorld.fs.view (locate confirmEnv
        (filepath.Join confirmEnv.goos [notesDir, strings.TrimSpace "2023-12-31_old.md\n"]))
        ≠ .absent ∧
      (deleteNote confirmEnv sampleWorld).fs.view (locate confirmEnv
        (filepath.Join confirmEnv.goos [notesDir, strings.TrimSpace "2023-12-31_old.md\n"]))
        = .absent ∧
      (∀ q : Location,
        q ≠ locate confirmEnv (filepath.Join confirmEnv.goos
          [notesDir, strings.TrimSpace "2023-12-31_old.md\n"]) →
        (deleteNote confirmEnv sampleWorld).fs.view q = sampleWorld.fs.view q) ∧
      eventsSince sampleWorld (deleteNote confirmEnv sampleWorld) =
        deleteAsk confirmEnv ["2023-12-31_old.md"] (strings.TrimSpace "2023-12-31_old.md\n") ++
        [.remove (filepath.Join confirmEnv.goos
            [notesDir, strings.TrimSpace "2023-12-31_old.md\n"]),
         .print ("Deleted note: " ++ strings.TrimSpace "2023-12-31_old.md\n" ++ "\n")]) ∧
    (filepath.Join escapeDotsEnv.goos [notesDir, strings.TrimSpace "../../../escape.txt\n"]
        = ["..", "escape.txt"] ∧
      locate escapeDotsEnv (filepath.Join escapeDotsEnv.goos
          [notesDir, strings.TrimSpace "../../../escape.txt\n"]) = ["home", "escape.txt"] ∧
      (World.mk escapeStorage []).fs.view ["home", "escape.txt"] = .regular "outside" ∧
      (World.mk escapeStorage []).fs.view (locate escapeDotsEnv
        (filepath.Join escapeDotsEnv.goos [notesDir, strings.TrimSpace "../../../escape.txt\n"]))
        ≠ .absent ∧
      (deleteNote escapeDotsEnv ⟨escapeStorage, []⟩).fs.view (locate escapeDotsEnv
        (filepath.Join escapeDotsEnv.goos [notesDir, strings.TrimSpace "../../../escape.txt\n"]))
        = .absent ∧
      (∀ q : Location,
        q ≠ locate escapeDotsEnv (filepath.Join escapeDotsEnv.goos
          [notesDir, strings.TrimSpace "../../../escape.txt\n"]) →
        (deleteNote escapeDotsEnv ⟨escapeStorage, []⟩).fs.view q
          = (World.mk escapeStorage []).fs.view q) ∧
      eventsSince ⟨escapeStorage, []⟩ (deleteNote escapeDotsEnv ⟨escapeStorage, []⟩) =
        deleteAsk escapeDotsEnv ["2023-12-31_old.md"]
          (strings.TrimSpace "../../../escape.txt\n") ++
        [.remove (filepath.Join escapeDotsEnv.goos
            [notesDir, strings.TrimSpace "../../../escape.txt\n"]),
         .print ("Deleted note: " ++ strings.TrimSpace "../../../escape.txt\n" ++ "\n")]) ∧
    ((∀ c ∈ "2023-12-31_old.md".data.head?, unicode.IsSpace c = false) ∧
      strings.TrimSpace ("2023-12-31_old.md" ++ "\n") = "2023-12-31_old.md" ∧
      filepath.Join confirmEnv.goos
          [notesDir, strings.TrimSpace ("2023-12-31_old.md" ++ "\n")]
        = notesPath ++ ["2023-12-31_old.md"] ∧
      locate confirmEnv (filepath.Join confirmEnv.goos
          [notesDir, strings.TrimSpace ("2023-12-31_old.md" ++ "\n")])
        = notesLoc confirmEnv ++ ["2023-12-31_old.md"]) :=
  ⟨⟨by decide, (deleteNote_spec declineEnv sampleWorld).1 (by decide)⟩,
   ⟨rfl, rfl, by decide, by decide, by decide,
    (deleteNote_spec confirmEnv sampleWorld).2.1 ["2023-12-31_old.md"] "2023-12-31_old.md\n"
      rfl (by decide) rfl (by decide) (by decide) (by decide)⟩,
   ⟨by decide, by decide, by decide,
    (deleteNote_spec escapeDotsEnv ⟨escapeStorage, []⟩).2.1 ["2023-12-31_old.md"]
      "../../../escape.txt\n" rfl (by decide) rfl (by decide) (by decide) (by decide)⟩,
   ⟨by decide,
    (deleteNote_spec confirmEnv sampleWorld).2.2 ["2023-12-31_old.md"] "2023-12-31_old.md" "\n"
      rfl (by decide) (by unfold NoSeparator; decide) (by decide) (by decide)⟩⟩

/-- C2 fails as stated. The notes directory holds ` x.md` and `x.md`; the note
` x.md` is picked in the selector and the answer is `y`. The trimmed output is
`x.md`: the picked note stays, and the other note is removed. -/
theorem deleteNote_space_name :
    (getNotes spaceEnv ⟨spaceStorage, []⟩).1 = .ok [" x.md", "x.md"] ∧
    spaceEnv.fzfOutput deleteArgs (strings.Join [" x.md", "x.md"] "\n") = .ok " x.md\n" ∧
    spaceEnv.line = "y" ∧
    (World.mk spaceStorage []).fs.view ["home", "me", "E:", "Notes", "x.md"]
      = .regular "other" ∧
    (deleteNote spaceEnv ⟨spaceStorage, []⟩).fs.view ["home", "me", "E:", "Notes", " x.md"]
      = .regular "picked" ∧
    (deleteNote spaceEnv ⟨spaceStorage, []⟩).fs.view ["home", "me", "E:", "Notes", "x.md"]
      = .absent ∧
    eventsSince ⟨spaceStorage, []⟩ (deleteNote spaceEnv ⟨spaceStorage, []⟩) =
      deleteAsk spaceEnv [" x.md", "x.md"] "x.md" ++
      [.remove ["E:", "Notes", "x.md"], .print "Deleted note: x.md\n"] := by
  refine ⟨rfl, rfl, rfl, by decide, by decide, by decide, by decide⟩

/-! ## C6: search with no notes -/

theorem searchNotes_readError (env : Env) (w : World) (err : GoError)
    (h : (getNotes env w).1 = .error err) :
    searchNotesWithFzf env w = ⟨w.fs, w.trace ++ [.call "searchNotesWithFzf",
      .readDir notesPath, .print ("Error retrieving notes: " ++ err.Error ++ "\n")]⟩ := by
  simp only [searchNotesWithFzf, getNotes_log, h]
  simp [println_two, World.log]

theorem searchNotes_noNotes (env : Env) (w : World)
    (h : (getNotes env w).1 = .ok []) :
    searchNotesWithFzf env w = ⟨w.fs, w.trace ++ [.call "searchNotesWithFzf",
      .readDir notesPath, .print "No notes found.\n"]⟩ := by
  simp only [searchNotesWithFzf, getNotes_log, h]
  simp [println_one, World.log]

theorem searchNotes_fzfError (env : Env) (w : World) (notes : List String) (err : GoError)
    (h : (getNotes env w).1 = .ok notes) (hne : notes ≠ [])
    (hfzf : env.fzfOutput searchArgs (strings.Join notes "\n") = .error err) :
    searchNotesWithFzf env w = ⟨w.fs, w.trace ++ [.call "searchNotesWithFzf",
      .readDir notesPath, .run fzf searchArgs (some (strings.Join notes "\n")),
      .print ("Error with fzf: " ++ err.Error ++ "\n")]⟩ := by
  simp only [searchArgs] at hfzf
  simp only [searchNotesWithFzf, getNotes_log, h, cmdOutput, hfzf]
  simp [hne, println_two, World.log, searchArgs]

theorem searchNotes_noSelection (env : Env) (w : World) (notes : List String) (out : String)
    (h : (getNotes env w).1 = .ok notes) (hne : notes ≠ [])
    (hfzf : env.fzfOutput searchArgs (strings.Join notes "\n") = .ok out)
    (hsel : strings.TrimSpace out = "") :
    searchNotesWithFzf env w = ⟨w.fs, w.trace ++ [.call "searchNotesWithFzf",
      .readDir notesPath, .run fzf searchArgs (some (strings.Join notes "\n"))]⟩ := by
  simp only [searchArgs] at hfzf
  simp only [searchNotesWithFzf, getNotes_log, h, cmdOutput, hfzf]
  simp [hne, hsel, World.log, searchArgs]

theorem searchNotes_open (env : Env) (w : World) (notes : List String) (out : String)
    (h : (getNotes env w).1 = .ok notes) (hne : notes ≠ [])
    (hfzf : env.fzfOutput searchArgs (strings.Join notes "\n") = .ok out)
    (hsel : strings.TrimSpace out ≠ "") :
    searchNotesWithFzf env w =
      openInEditor env (filepath.Join env.goos [notesDir, strings.TrimSpace out])
        ⟨w.fs, w.trace ++ [.call "searchNotesWithFzf", .readDir notesPath,
          .run fzf searchArgs (some (strings.Join notes "\n"))]⟩ := by
  simp only [searchArgs] at hfzf
  simp only [searchNotesWithFzf, getNotes_log, h, cmdOutput, hfzf]
  simp [hne, hsel, World.log, searchArgs]

/-- C6. In a storage whose notes directory has no entry ending in `.md`,
`searchNotesWithFzf` launches no subprocess at all, neither the selector nor
the editor, and leaves storage as it is; when its read of the directory
succeeds, all it does after the read is print `No notes found.`. -/
theorem searchNotes_empty (env : Env) (w : World)
    (hnone : ∀ kids : Forest, w.fs.find (notesLoc env) = .ok (.dir kids) →
      ∀ n ∈ kids.names, ¬ EndsInMd n) :
    (∀ (name : String) (args : List Arg) (stdin : Option String),
      Event.run name args stdin ∉ eventsSince w (searchNotesWithFzf env w)) ∧
    (searchNotesWithFzf env w).fs = w.fs ∧
    (∀ entries : List String, (os.ReadDir env w notesPath).1 = .ok entries →
      eventsSince w (searchNotesWithFzf env w) =
        [.call "searchNotesWithFzf", .readDir notesPath, .print "No notes found.\n"]) := by
  have hempty : ∀ notes, (getNotes env w).1 = .ok notes → notes = [] := by
    intro notes h
    obtain ⟨_, kids, hfind, rfl⟩ := getNotes_ok_inv env w notes h
    apply List.filter_eq_nil_iff.2
    intro n hn hmd
    exact hnone kids hfind n hn ((hasSuffix_md_iff n).1 hmd)
  refine ⟨?_, ?_, ?_⟩
  · intro name args stdin hmem
    cases h : (getNotes env w).1 with
    | error err =>
      rw [searchNotes_readError env w err h] at hmem
      simp [eventsSince] at hmem
    | ok notes =>
      have := hempty notes h
      subst this
      rw [searchNotes_noNotes env w h] at hmem
      simp [eventsSince] at hmem
  · cases h : (getNotes env w).1 with
    | error err => rw [searchNotes_readError env w err h]
    | ok notes =>
      have := hempty notes h
      subst this
      rw [searchNotes_noNotes env w h]
  · intro entries hr
    have h : (getNotes env w).1 = .ok (entries.filter (fun n => strings.HasSuffix n ".md")) := by
      rw [getNotes_eq, join_notesDir, hr]
    have := hempty _ h
    rw [this] at h
    rw [searchNotes_noNotes env w h, eventsSince_append]

/-- C6 at a storage whose notes directory holds `notes.txt` only. -/
theorem searchNotes_empty_witness :
    notesLoc sampleEnv = ["home", "me", "E:", "Notes"] ∧
    (∀ kids : Forest,
      (World.mk noNotesStorage []).fs.find (notesLoc sampleEnv) = .ok (.dir kids) →
      ∀ n ∈ kids.names, ¬ EndsInMd n) ∧
    (os.ReadDir sampleEnv ⟨noNotesStorage, []⟩ notesPath).1 = .ok ["notes.txt"] ∧
    (searchNotesWithFzf sampleEnv ⟨noNotesStorage, []⟩).fs = noNotesStorage ∧
    eventsSince ⟨noNotesStorage, []⟩ (searchNotesWithFzf sampleEnv ⟨noNotesStorage, []⟩) =
      [.call "searchNotesWithFzf", .readDir notesPath, .print "No notes found.\n"] := by
  have hnone : ∀ kids : Forest,
      (World.mk noNotesStorage []).fs.find (notesLoc sampleEnv) = .ok (.dir kids) →
      ∀ n ∈ kids.names, ¬ EndsInMd n := by
    intro kids hk n hn hmd
    have hk' : kids = .file "notes.txt" "plain" .nil := by
      have : (World.mk noNotesStorage []).fs.find (notesLoc sampleEnv)
          = .ok (.dir (.file "notes.txt" "plain" .nil)) := rfl
      rw [this] at hk
      cases hk
      rfl
    subst hk'
    have hn' : n = "notes.txt" := by simpa [Forest.names] using hn
    subst hn'
    have := (hasSuffix_md_iff "notes.txt").2 hmd
    revert this
    decide
  exact ⟨by decide, hnone, rfl, (searchNotes_empty sampleEnv ⟨noNotesStorage, []⟩ hnone).2.1,
    (searchNotes_empty sampleEnv ⟨noNotesStorage, []⟩ hnone).2.2 _ rfl⟩

/-! ## C7: bootstrap -/

theorem except_map_ok {α β : Type} (g : α → β) (x : Except GoError α) (y : β)
    (h : Except.map g x = .ok y) : ∃ a, x = .ok a ∧ y = g a := by
  cases x with
  | error e => simp [Except.map] at h
  | ok a =>
    simp only [Except.map] at h
    cases h
    exact ⟨a, rfl, rfl⟩

theorem find_mkdirAll_nil : ∀ (p : Location) (k : Forest),
    Forest.mkdirAll .nil p = .ok k → k.find p = .ok (.dir .nil) := by
  intro p
  induction p with
  | nil =>
    intro k h
    simp only [Forest.mkdirAll] at h
    cases h
    rfl
  | cons n p ih =>
    intro k h
    simp only [Forest.mkdirAll, Forest.get] at h
    obtain ⟨k', hk', rfl⟩ := except_map_ok _ _ _ h
    rw [find_cons_dir _ k' n p (get_put_same _ n _)]
    exact ih k' hk'

/-- A directory that `os.MkdirAll` had to create is empty. -/
theorem find_mkdirAll_new : ∀ (p : Location) (f f' : Forest) (e : GoError),
    f.find p = .error e → f.mkdirAll p = .ok f' →
      e = .notExist ∧ f'.find p = .ok (.dir .nil) := by
  intro p
  induction p with
  | nil => intro f f' e h; simp [Forest.find] at h
  | cons n p ih =>
    intro f f' e hfind h
    simp only [Forest.mkdirAll] at h
    cases hget : f.get n with
    | none =>
      simp only [hget] at h
      obtain ⟨k', hk', rfl⟩ := except_map_ok _ _ _ h
      simp only [Forest.find, hget] at hfind
      cases hfind
      refine ⟨rfl, ?_⟩
      rw [find_cons_dir _ k' n p (get_put_same _ n _)]
      exact find_mkdirAll_nil p k' hk'
    | some v =>
      cases v with
      | file c => simp [hget] at h
      | dir k =>
        simp only [hget] at h
        obtain ⟨k', hk', rfl⟩ := except_map_ok _ _ _ h
        rw [find_cons_dir f k n p hget] at hfind
        obtain ⟨he, hf⟩ := ih k k' e hfind hk'
        refine ⟨he, ?_⟩
        rw [find_cons_dir _ k' n p (get_put_same _ n _)]
        exact hf

theorem mkdirAll_fst_none (env : Env) (w : World) (p : Path)
    (h : (os.MkdirAll env w p).1 = none) :
    env.mkdirFault = none ∧ ∃ fs', w.fs.mkdirAll (locate env p) = .ok fs' := by
  unfold os.MkdirAll at h
  cases hf : env.mkdirFault with
  | some msg => simp [hf] at h
  | none =>
    simp only [hf] at h
    cases ha : w.fs.mkdirAll (locate env p) with
    | error e' => simp [ha] at h
    | ok fs' => exact ⟨rfl, fs', rfl⟩

theorem mkdirAll_ok (env : Env) (w : World) (p : Path) (fs' : Forest)
    (hf : env.mkdirFault = none) (h : w.fs.mkdirAll (locate env p) = .ok fs') :
    os.MkdirAll env w p = (none, ⟨fs', w.trace ++ [.mkdirAll p]⟩) := by
  simp [os.MkdirAll, hf, h, World.log]

theorem stat_snd (env : Env) (w : World) (p : Path) :
    (os.Stat env w p).2 = w.log (.stat p) := by
  unfold os.Stat
  cases env.statFault with
  | some msg => rfl
  | none => cases w.fs.find (locate env p) <;> rfl

theorem stat_pair (env : Env) (w : World) (p : Path) :
    os.Stat env w p = ((os.Stat env w p).1, w.log (.stat p)) := by
  rw [← stat_snd]

/-- The run of `ensureNotesDir` when `os.Stat` does not report "not exist". -/
theorem ensureNotesDir_present (env : Env) (w : World)
    (h : os.IsNotExist env.goos (os.Stat env w notesPath).1 = false) :
    ensureNotesDir env w = .cont ⟨w.fs, w.trace ++ [.stat notesPath]⟩ := by
  unfold ensureNotesDir
  rw [join_notesDir, stat_pair]
  simp [h, World.log]

/-- The run of `ensureNotesDir` when the directory has to be created and is. -/
theorem ensureNotesDir_created (env : Env) (w : World) (fs' : Forest)
    (h : os.IsNotExist env.goos (os.Stat env w notesPath).1 = true)
    (hf : env.mkdirFault = none) (hmk : w.fs.mkdirAll (notesLoc env) = .ok fs') :
    ensureNotesDir env w = .cont ⟨fs', w.trace ++ [.stat notesPath, .mkdirAll notesPath,
      .print "Created notes directory: E:/Notes\n"]⟩ := by
  unfold ensureNotesDir
  rw [join_notesDir, stat_pair]
  simp only [h, if_true]
  rw [mkdirAll_ok env _ _ fs' hf (by simpa using hmk)]
  simp [println_two, World.log, notesDir]

/-- The run of `ensureNotesDir` when the creation fails. -/
theorem ensureNotesDir_failed (env : Env) (w : World) (e : GoError)
    (h : os.IsNotExist env.goos (os.Stat env w notesPath).1 = true)
    (hmk : (os.MkdirAll env (w.log (.stat notesPath)) notesPath).1 = some e) :
    ∃ w', ensureNotesDir env w = .exit 1 w' := by
  unfold ensureNotesDir
  rw [join_notesDir, stat_pair]
  simp only [h, if_true]
  rcases hm : os.MkdirAll env (w.log (.stat notesPath)) notesPath with ⟨r, w'⟩
  rw [hm] at hmk
  simp only at hmk
  subst hmk
  exact ⟨_, rfl⟩

theorem stat_of_present (env : Env) (w : World) (p : Path)
    (h : w.fs.view (locate env p) ≠ .absent) :
    os.IsNotExist env.goos (os.Stat env w p).1 = false := by
  unfold os.Stat
  cases env.statFault with
  | some msg => rfl
  | none =>
    cases hfind : w.fs.find (locate env p) with
    | error e => simp [Forest.view, hfind] at h
    | ok v => rfl

/-- C7. (1) When the notes directory is absent, `os.Stat` answers from
storage and the creation succeeds, `ensureNotesDir` goes on (no exit) and the
notes directory then exists and is empty. (2) When the notes directory
exists, `ensureNotesDir` does nothing but the `os.Stat`: no creation attempt,
no message, no exit, storage unchanged. (3) A run that follows, in the same
process, a run which went on changes nothing any more, so that two runs in a
row leave the storage of one run, provided the first `os.Stat` answered from
storage when the directory was absent. -/
theorem ensureNotesDir_spec (env env' : Env) (w : World) :
    filepath.Join env.goos [notesDir] = notesPath ∧
    (w.fs.view (notesLoc env) = .absent → env.statFault = none →
      (os.MkdirAll env w notesPath).1 = none →
      ∃ fs' : Forest,
        ensureNotesDir env w = .cont ⟨fs', w.trace ++ [.stat notesPath, .mkdirAll notesPath,
          .print "Created notes directory: E:/Notes\n"]⟩ ∧
        fs'.find (notesLoc env) = .ok (.dir .nil)) ∧
    (w.fs.view (notesLoc env) = .directory →
      ensureNotesDir env w = .cont ⟨w.fs, w.trace ++ [.stat notesPath]⟩) ∧
    (env'.goos = env.goos → env'.cwd = env.cwd →
      (w.fs.view (notesLoc env) = .absent → env.statFault = none) →
      ∀ w₁ : World, ensureNotesDir env w = .cont w₁ →
        ensureNotesDir env' w₁ = .cont ⟨w₁.fs, w₁.trace ++ [.stat notesPath]⟩) := by
  refine ⟨join_notesDir _, ?_, ?_, ?_⟩
  · intro habsent hstat hmk
    obtain ⟨e, hfind⟩ := (view_absent_iff _ _).1 habsent
    obtain ⟨hf, fs', hmk'⟩ := mkdirAll_fst_none env w _ hmk
    obtain ⟨he, hnew⟩ := find_mkdirAll_new _ _ _ e hfind hmk'
    subst he
    have hS : os.IsNotExist env.goos (os.Stat env w notesPath).1 = true := by
      have hfind' : w.fs.find (locate env notesPath) = .error .notExist := hfind
      simp [os.Stat, hstat, hfind', os.IsNotExist]
    exact ⟨fs', ensureNotesDir_created env w fs' hS hf hmk', hnew⟩
  · intro hdir
    exact ensureNotesDir_present env w
      (stat_of_present env w _ (by
        show w.fs.view (notesLoc env) ≠ .absent
        rw [hdir]
        exact fun h => by cases h))
  · intro hgoos hcwd hfault w₁ hrun
    have hloc : locate env' notesPath = notesLoc env := locate_congr env env' hgoos hcwd _
    by_cases habsent : w.fs.view (notesLoc env) = .absent
    · have hstat := hfault habsent
      obtain ⟨e, hfind⟩ := (view_absent_iff _ _).1 habsent
      have hfind' : w.fs.find (locate env notesPath) = .error e := hfind
      have hS1 : (os.Stat env w notesPath).1 = some e := by
        simp [os.Stat, hstat, hfind']
      cases hne : os.IsNotExist env.goos (some e) with
      | true =>
        cases hm : (os.MkdirAll env (w.log (.stat notesPath)) notesPath).1 with
        | some e' =>
          obtain ⟨w', hexit⟩ := ensureNotesDir_failed env w e' (by rw [hS1]; exact hne) hm
          rw [hexit] at hrun
          cases hrun
        | none =>
          obtain ⟨hf, fs', hmk'⟩ := mkdirAll_fst_none env _ _ hm
          simp only [log_fs] at hmk'
          rw [ensureNotesDir_created env w fs' (by rw [hS1]; exact hne) hf hmk'] at hrun
          cases hrun
          obtain ⟨_, hnew⟩ := find_mkdirAll_new _ _ _ e hfind hmk'
          exact ensureNotesDir_present env' _
            (stat_of_present env' _ _ (by rw [hloc]; simp [Forest.view, hnew]))
      | false =>
        rw [ensureNotesDir_present env w (by rw [hS1]; exact hne)] at hrun
        cases hrun
        apply ensureNotesDir_present env'
        unfold os.Stat
        cases env'.statFault with
        | some msg => rfl
        | none =>
          simp only [hloc, hfind]
          rw [hgoos]
          exact hne
    · rw [ensureNotesDir_present env w (stat_of_present env w _ habsent)] at hrun
      cases hrun
      exact ensureNotesDir_present env' _ (stat_of_present env' _ _ (by rw [hloc]; exact habsent))

/-- C7 in an empty working directory `/home/me`: the first run creates
`E:/Notes` there, empty; the second run only looks. -/
theorem ensureNotesDir_spec_witness :
    notesLoc sampleEnv = ["home", "me", "E:", "Notes"] ∧
    (World.mk (inHome .nil) []).fs.view (notesLoc sampleEnv) = .absent ∧
    (os.MkdirAll sampleEnv ⟨inHome .nil, []⟩ notesPath).1 = none ∧
    (∃ fs' : Forest,
      ensureNotesDir sampleEnv ⟨inHome .nil, []⟩ = .cont ⟨fs', ([] : List Event) ++
        [.stat notesPath, .mkdirAll notesPath,
          .print "Created notes directory: E:/Notes\n"]⟩ ∧
      fs'.find (notesLoc sampleEnv) = .ok (.dir .nil)) ∧
    sampleWorld.fs.view (notesLoc sampleEnv) = .directory ∧
    ensureNotesDir sampleEnv sampleWorld = .cont ⟨sampleWorld.fs, [.stat notesPath]⟩ ∧
    ensureNotesDir laterEnv
        ⟨inHome (.dir "E:" (.dir "Notes" .nil .nil) .nil),
          [.stat notesPath, .mkdirAll notesPath,
            .print "Created notes directory: E:/Notes\n"]⟩
      = .cont ⟨inHome (.dir "E:" (.dir "Notes" .nil .nil) .nil),
          [.stat notesPath, .mkdirAll notesPath,
            .print "Created notes directory: E:/Notes\n", .stat notesPath]⟩ :=
  ⟨by decide, by decide, by decide,
   (ensureNotesDir_spec sampleEnv laterEnv ⟨inHome .nil, []⟩).2.1 (by decide) rfl (by decide),
   by decide,
   (ensureNotesDir_spec sampleEnv laterEnv sampleWorld).2.2.1 (by decide),
   (ensureNotesDir_spec sampleEnv laterEnv ⟨inHome .nil, []⟩).2.2.2 rfl rfl (fun _ => rfl) _
     (by decide)⟩

/-! ## C8, C9: the menu -/

theorem call_not_mem_editorReport (env : Env) (p : Path) (fs : Forest) (fn : String) :
    Event.call fn ∉ editorReport env p fs := by
  unfold editorReport
  cases (env.editorRun p fs).2 <;> simp

/-- The events of a run of `deleteNote`: they extend the trace, and the only
operation entered is `deleteNote`. -/
theorem deleteNote_events (env : Env) (w : World) :
    ∃ l : List Event, (deleteNote env w).trace = w.trace ++ l ∧
      Event.call "deleteNote" ∈ l ∧ ∀ fn : String, Event.call fn ∈ l → fn = "deleteNote" := by
  cases h : (getNotes env w).1 with
  | error err =>
    rw [deleteNote_readError env w err h]
    exact ⟨_, rfl, by simp, by simp⟩
  | ok notes =>
    by_cases hne : notes = []
    · subst hne
      rw [deleteNote_noNotes env w h]
      exact ⟨_, rfl, by simp, by simp⟩
    · cases hfzf : env.fzfOutput deleteArgs (strings.Join notes "\n") with
      | error err =>
        rw [deleteNote_fzfError env w notes err h hne hfzf]
        exact ⟨_, rfl, by simp, by simp⟩
      | ok out =>
        by_cases hsel : strings.TrimSpace out = ""
        · rw [deleteNote_noSelection env w notes out h hne hfzf hsel]
          exact ⟨_, rfl, by simp, by simp⟩
        · by_cases hyes : env.line = "y" ∨ env.line = "Y"
          · cases hrm : (os.Remove env w
                (filepath.Join env.goos [notesDir, strings.TrimSpace out])).1 with
            | some e =>
              rw [deleteNote_removeError env w notes out e h hne hfzf hsel hyes hrm]
              exact ⟨_, List.append_assoc _ _ _, by simp [deleteAsk], by simp [deleteAsk]⟩
            | none =>
              obtain ⟨hf, fs', halter⟩ := remove_fst_none env w _ hrm
              rw [deleteNote_removed env w notes out fs' h hne hfzf hsel hyes hf halter]
              exact ⟨_, List.append_assoc _ _ _, by simp [deleteAsk], by simp [deleteAsk]⟩
          · rw [deleteNote_cancelled env w notes out h hne hfzf hsel hyes]
            exact ⟨_, List.append_assoc _ _ _, by simp [deleteAsk], by simp [deleteAsk]⟩

/-- The events of a run of `searchNotesWithFzf`. -/
theorem searchNotes_events (env : Env) (w : World) :
    ∃ l : List Event, (searchNotesWithFzf env w).trace = w.trace ++ l ∧
      Event.call "searchNotesWithFzf" ∈ l ∧
      ∀ fn : String, Event.call fn ∈ l → fn = "searchNotesWithFzf" := by
  cases h : (getNotes env w).1 with
  | error err =>
    rw [searchNotes_readError env w err h]
    exact ⟨_, rfl, by simp, by simp⟩
  | ok notes =>
    by_cases hne : notes = []
    · subst hne
      rw [searchNotes_noNotes env w h]
      exact ⟨_, rfl, by simp, by simp⟩
    · cases hfzf : env.fzfOutput searchArgs (strings.Join notes "\n") with
      | error err =>
        rw [searchNotes_fzfError env w notes err h hne hfzf]
        exact ⟨_, rfl, by simp, by simp⟩
      | ok out =>
        by_cases hsel : strings.TrimSpace out = ""
        · rw [searchNotes_noSelection env w notes out h hne hfzf hsel]
          exact ⟨_, rfl, by simp, by simp⟩
        · rw [searchNotes_open env w notes out h hne hfzf hsel, openInEditor_eq]
          refine ⟨_, by simp only [List.append_assoc]; rfl, by simp, ?_⟩
          intro fn hfn
          have := call_not_mem_editorReport env
            (filepath.Join env.goos [notesDir, strings.TrimSpace out]) w.fs fn
          simpa [this] using hfn

theorem writeFile_trace (env : Env) (w : World) (p : Path) (data : String) :
    (os.WriteFile env w p data).2.trace = w.trace ++ [.writeFile p data] := by
  unfold os.WriteFile
  cases env.writeFault with
  | some msg => rfl
  | none => cases w.fs.alter (writeEntry data) (locate env p) <;> rfl

/-- The events of a run of `newNote`. -/
theorem newNote_events (env : Env) (w : World) :
    ∃ l : List Event, (newNote env w).trace = w.trace ++ l ∧
      Event.call "newNote" ∈ l ∧ ∀ fn : String, Event.call fn ∈ l → fn = "newNote" := by
  unfold newNote
  simp only [scanText, fmt.Print]
  rw [stat_pair]
  simp only []
  split
  · rw [openInEditor_eq]
    refine ⟨_, by simp only [println_two, log_trace, List.append_assoc]; rfl, by simp, ?_⟩
    intro fn hfn
    have := call_not_mem_editorReport env
      (filepath.Join env.goos [notesDir, env.now₁.Format "2006-01-02" ++ "_" ++ env.line ++ ".md"])
      w.fs fn
    simpa [this] using hfn
  · split
    · refine ⟨_, by simp only [println_two, log_trace, writeFile_trace, List.append_assoc]; rfl,
        by simp, by simp⟩
    · rw [openInEditor_eq]
      refine ⟨_, by simp only [println_two, log_trace, log_fs, writeFile_trace,
        List.append_assoc]; rfl, by simp, ?_⟩
      intro fn hfn
      simp only [List.mem_append, List.mem_cons, List.mem_singleton, List.not_mem_nil,
        or_false] at hfn
      rcases hfn with hfn | hfn | hfn | hfn | hfn | hfn | hfn | hfn
      · simpa using hfn
      · cases hfn
      · cases hfn
      · cases hfn
      · cases hfn
      · cases hfn
      · cases hfn
      · exact absurd hfn (call_not_mem_editorReport _ _ _ _)

theorem showFzfMenu_error (env : Env) (w : World) (err : GoError)
    (h : env.fzfOutput menuArgs (strings.Join options "\n") = .error err) :
    showFzfMenu env w = ((false, some err), menuShown w) := by
  simp [showFzfMenu, cmdOutput, h, World.log, menuShown]

theorem showFzfMenu_ok (env : Env) (w : World) (o : String)
    (h : env.fzfOutput menuArgs (strings.Join options "\n") = .ok o) :
    showFzfMenu env w =
      if strings.TrimSpace o = "Create a new note" then ((true, none), newNote env (menuShown w))
      else if strings.TrimSpace o = "Search and open notes" then
        ((true, none), searchNotesWithFzf env (menuShown w))
      else if strings.TrimSpace o = "Delete a note" then ((true, none), deleteNote env (menuShown w))
      else if strings.TrimSpace o = "Exit" then ((false, none), menuShown w)
      else ((true, none), ⟨w.fs, (menuShown w).trace ++ [.print "Invalid selection\n"]⟩) := by
  simp only [showFzfMenu, cmdOutput, h]
  rfl

theorem eventsSince_menuShown (w w' : World) (l : List Event)
    (h : w'.trace = (menuShown w).trace ++ l) :
    eventsSince w w' = .run fzf menuArgs (some (strings.Join options "\n")) :: l := by
  simp [eventsSince, h, menuShown]

/-- Which operation a menu iteration enters, by the trimmed selector output. -/
theorem menu_calls (env : Env) (w : World) (o : String)
    (h : env.fzfOutput menuArgs (strings.Join options "\n") = .ok o) (fn : String) :
    Event.call fn ∈ eventsSince w (showFzfMenu env w).2 ↔
      (fn = "newNote" ∧ strings.TrimSpace o = "Create a new note") ∨
      (fn = "searchNotesWithFzf" ∧ strings.TrimSpace o = "Search and open notes") ∨
      (fn = "deleteNote" ∧ strings.TrimSpace o = "Delete a note") := by
  rw [showFzfMenu_ok env w o h]
  by_cases h1 : strings.TrimSpace o = "Create a new note"
  · obtain ⟨l, hl, hin, honly⟩ := newNote_events env (menuShown w)
    simp only [h1, if_true]
    rw [eventsSince_menuShown w _ l hl]
    constructor
    · intro hmem
      rcases List.mem_cons.1 hmem with hmem | hmem
      · cases hmem
      · exact Or.inl ⟨honly fn hmem, trivial⟩
    · intro hor
      rcases hor with ⟨rfl, _⟩ | ⟨_, hc⟩ | ⟨_, hc⟩
      · exact List.mem_cons_of_mem _ hin
      · exact absurd hc (by decide)
      · exact absurd hc (by decide)
  · by_cases h2 : strings.TrimSpace o = "Search and open notes"
    · obtain ⟨l, hl, hin, honly⟩ := searchNotes_events env (menuShown w)
      simp only [h2, if_true]
      rw [if_neg (by decide), eventsSince_menuShown w _ l hl]
      constructor
      · intro hmem
        rcases List.mem_cons.1 hmem with hmem | hmem
        · cases hmem
        · exact Or.inr (Or.inl ⟨honly fn hmem, trivial⟩)
      · intro hor
        rcases hor with ⟨_, hc⟩ | ⟨rfl, _⟩ | ⟨_, hc⟩
        · exact absurd hc (by decide)
        · exact List.mem_cons_of_mem _ hin
        · exact absurd hc (by decide)
    · by_cases h3 : strings.TrimSpace o = "Delete a note"
      · obtain ⟨l, hl, hin, honly⟩ := deleteNote_events env (menuShown w)
        simp only [h3, if_true]
        rw [if_neg (by decide), if_neg (by decide), eventsSince_menuShown w _ l hl]
        constructor
        · intro hmem
          rcases List.mem_cons.1 hmem with hmem | hmem
          · cases hmem
          · exact Or.inr (Or.inr ⟨honly fn hmem, trivial⟩)
        · intro hor
          rcases hor with ⟨_, hc⟩ | ⟨_, hc⟩ | ⟨rfl, _⟩
          · exact absurd hc (by decide)
          · exact absurd hc (by decide)
          · exact List.mem_cons_of_mem _ hin
      · simp only [h1, h2, h3, if_false, false_and, and_false, or_false]
        by_cases h4 : strings.TrimSpace o = "Exit"
        · simp [h4, eventsSince, menuShown]
        · simp [h4, eventsSince, menuShown]

theorem mainLoop_cons (env : Env) (rest : List Env) (w : World) :
    mainLoop (env :: rest) w =
      match showFzfMenu env w with
      | ((_, some err), w') =>
        (.Exiting, ⟨w'.fs, w'.trace ++ [.print ("Error displaying menu: " ++ err.Error ++ "\n")]⟩)
      | ((continueLoop, none), w') =>
        if continueLoop = false then (.Exiting, w') else mainLoop rest w' := by
  rw [mainLoop]
  rcases showFzfMenu env w with ⟨⟨b, e⟩, w'⟩
  cases e with
  | some err => simp [println_two, World.log]
  | none => cases b <;> simp

/-- C8. One iteration of the menu, with `c` the selector output trimmed of
surrounding white space. A selector error ends the loop. Otherwise the
iteration runs `newNote`, `searchNotesWithFzf` or `deleteNote` exactly when
`c` is `Create a new note`, `Search and open notes` or `Delete a note`; it
ends the loop exactly when `c` is `Exit`; and for any other `c` it prints
`Invalid selection`, enters no operation and the loop goes on. -/
theorem showFzfMenu_spec (env : Env) (w : World) (rest : List Env) :
    (∀ err : GoError, env.fzfOutput menuArgs (strings.Join options "\n") = .error err →
      showFzfMenu env w = ((false, some err), menuShown w) ∧
      mainLoop (env :: rest) w = (.Exiting, ⟨w.fs, (menuShown w).trace ++
        [.print ("Error displaying menu: " ++ err.Error ++ "\n")]⟩)) ∧
    (∀ o : String, env.fzfOutput menuArgs (strings.Join options "\n") = .ok o →
      (strings.TrimSpace o = "Create a new note" →
        showFzfMenu env w = ((true, none), newNote env (menuShown w))) ∧
      (strings.TrimSpace o = "Search and open notes" →
        showFzfMenu env w = ((true, none), searchNotesWithFzf env (menuShown w))) ∧
      (strings.TrimSpace o = "Delete a note" →
        showFzfMenu env w = ((true, none), deleteNote env (menuShown w))) ∧
      (strings.TrimSpace o = "Exit" →
        showFzfMenu env w = ((false, none), menuShown w) ∧
        mainLoop (env :: rest) w = (.Exiting, menuShown w)) ∧
      (strings.TrimSpace o ∉ options →
        showFzfMenu env w = ((true, none),
          ⟨w.fs, (menuShown w).trace ++ [.print "Invalid selection\n"]⟩) ∧
        ∀ fn : String, Event.call fn ∉ eventsSince w (showFzfMenu env w).2) ∧
      (Event.call "newNote" ∈ eventsSince w (showFzfMenu env w).2 ↔
        strings.TrimSpace o = "Create a new note") ∧
      (Event.call "searchNotesWithFzf" ∈ eventsSince w (showFzfMenu env w).2 ↔
        strings.TrimSpace o = "Search and open notes") ∧
      (Event.call "deleteNote" ∈ eventsSince w (showFzfMenu env w).2 ↔
        strings.TrimSpace o = "Delete a note") ∧
      ((mainLoop [env] w).1 = .Exiting ↔ strings.TrimSpace o = "Exit") ∧
      (strings.TrimSpace o ≠ "Exit" →
        mainLoop (env :: rest) w = mainLoop rest (showFzfMenu env w).2)) := by
  refine ⟨?_, ?_⟩
  · intro err h
    refine ⟨showFzfMenu_error env w err h, ?_⟩
    rw [mainLoop_cons, showFzfMenu_error env w err h]
    rfl
  · intro o h
    have hm := showFzfMenu_ok env w o h
    have hcalls := menu_calls env w o h
    refine ⟨?_, ?_, ?_, ?_, ?_, ?_, ?_, ?_, ?_, ?_⟩
    · intro hc
      rw [hm, if_pos hc]
    · intro hc
      rw [hm, hc, if_neg (by decide), if_pos rfl]
    · intro hc
      rw [hm, hc, if_neg (by decide), if_neg (by decide), if_pos rfl]
    · intro hc
      have hs : showFzfMenu env w = ((false, none), menuShown w) := by
        rw [hm, hc, if_neg (by decide), if_neg (by decide), if_neg (by decide), if_pos rfl]
      refine ⟨hs, ?_⟩
      rw [mainLoop_cons, hs]
      rfl
    · intro hc
      simp only [options, List.mem_cons, List.mem_singleton, List.not_mem_nil, or_false,
        not_or] at hc
      obtain ⟨h1, h2, h3, h4⟩ := hc
      refine ⟨by rw [hm, if_neg h1, if_neg h2, if_neg h3, if_neg h4], ?_⟩
      intro fn hfn
      rcases (hcalls fn).1 hfn with ⟨_, hc⟩ | ⟨_, hc⟩ | ⟨_, hc⟩
      · exact h1 hc
      · exact h2 hc
      · exact h3 hc
    · rw [hcalls]
      constructor
      · rintro (⟨_, hc⟩ | ⟨hf, _⟩ | ⟨hf, _⟩)
        · exact hc
        · exact absurd hf (by decide)
        · exact absurd hf (by decide)
      · intro hc
        exact Or.inl ⟨rfl, hc⟩
    · rw [hcalls]
      constructor
      · rintro (⟨hf, _⟩ | ⟨_, hc⟩ | ⟨hf, _⟩)
        · exact absurd hf (by decide)
        · exact hc
        · exact absurd hf (by decide)
      · intro hc
        exact Or.inr (Or.inl ⟨rfl, hc⟩)
    · rw [hcalls]
      constructor
      · rintro (⟨hf, _⟩ | ⟨hf, _⟩ | ⟨_, hc⟩)
        · exact absurd hf (by decide)
        · exact absurd hf (by decide)
        · exact hc
      · intro hc
        exact Or.inr (Or.inr ⟨rfl, hc⟩)
    · rw [mainLoop_cons, hm]
      by_cases h1 : strings.TrimSpace o = "Create a new note"
      · simp [h1, mainLoop]
      · by_cases h2 : strings.TrimSpace o = "Search and open notes"
        · simp [h2, mainLoop]
        · by_cases h3 : strings.TrimSpace o = "Delete a note"
          · simp [h3, mainLoop]
          · by_cases h4 : strings.TrimSpace o = "Exit"
            · simp [h4]
            · simp [h1, h2, h3, h4, mainLoop]
    · intro hne
      rw [mainLoop_cons, hm]
      by_cases h1 : strings.TrimSpace o = "Create a new note"
      · simp [h1]
      · by_cases h2 : strings.TrimSpace o = "Search and open notes"
        · simp [h2]
        · by_cases h3 : strings.TrimSpace o = "Delete a note"
          · simp [h3]
          · simp [h1, h2, h3, hne]

/-- C8 on the sample storage: a selector error and `Exit` end the loop, an
unknown line prints `Invalid selection`, `Delete a note` runs `deleteNote`. -/
theorem showFzfMenu_spec_witness :
    (escapeEnv.fzfOutput menuArgs (strings.Join options "\n") = .error (.other "exit status 130") ∧
      showFzfMenu escapeEnv sampleWorld
        = ((false, some (.other "exit status 130")), menuShown sampleWorld) ∧
      mainLoop [escapeEnv, exitEnv] sampleWorld = (.Exiting, ⟨sampleWorld.fs,
        (menuShown sampleWorld).trace ++
          [.print ("Error displaying menu: " ++ (GoError.other "exit status 130").Error ++ "\n")]⟩)) ∧
    (strings.TrimSpace "Exit\n" = "Exit" ∧
      showFzfMenu exitEnv sampleWorld = ((false, none), menuShown sampleWorld) ∧
      mainLoop [exitEnv, exitEnv] sampleWorld = (.Exiting, menuShown sampleWorld)) ∧
    (strings.TrimSpace "List notes\n" ∉ options ∧
      showFzfMenu strangeEnv sampleWorld = ((true, none),
        ⟨sampleWorld.fs, (menuShown sampleWorld).trace ++ [.print "Invalid selection\n"]⟩) ∧
      ∀ fn : String, Event.call fn ∉ eventsSince sampleWorld (showFzfMenu strangeEnv sampleWorld).2) ∧
    (strings.TrimSpace "Delete a note\n" = "Delete a note" ∧
      showFzfMenu menuDeleteEnv sampleWorld
        = ((true, none), deleteNote menuDeleteEnv (menuShown sampleWorld)) ∧
      mainLoop [menuDeleteEnv, exitEnv] sampleWorld
        = mainLoop [exitEnv] (showFzfMenu menuDeleteEnv sampleWorld).2) :=
  ⟨⟨rfl, (showFzfMenu_spec escapeEnv sampleWorld [exitEnv]).1 _ rfl⟩,
   ⟨by decide, ((showFzfMenu_spec exitEnv sampleWorld [exitEnv]).2 "Exit\n" rfl).2.2.2.1
      (by decide)⟩,
   ⟨by decide, ((showFzfMenu_spec strangeEnv sampleWorld []).2 "List notes\n" rfl).2.2.2.2.1
      (by decide)⟩,
   ⟨by decide,
    ((showFzfMenu_spec menuDeleteEnv sampleWorld [exitEnv]).2 "Delete a note\n" rfl).2.2.1
      (by decide),
    ((showFzfMenu_spec menuDeleteEnv sampleWorld [exitEnv]).2 "Delete a note\n"
      rfl).2.2.2.2.2.2.2.2.2 (by decide)⟩⟩

/-- C9, as the code has it. Every iteration of the menu first launches the
selector on four candidate lines: the three actions `Create a new note`,
`Search and open notes`, `Delete a note`, then `Exit`. -/
theorem menu_candidates (env : Env) (w : World) :
    (eventsSince w (showFzfMenu env w).2).head? = some (.run fzf menuArgs
      (some "Create a new note\nSearch and open notes\nDelete a note\nExit")) ∧
    strings.Join options "\n" = "Create a new note\nSearch and open notes\nDelete a note\nExit" ∧
    options = ["Create a new note", "Search and open notes", "Delete a note", "Exit"] ∧
    options.length = 4 := by
  have hjoin : strings.Join options "\n"
      = "Create a new note\nSearch and open notes\nDelete a note\nExit" := by decide
  refine ⟨?_, hjoin, rfl, rfl⟩
  rw [← hjoin]
  cases h : env.fzfOutput menuArgs (strings.Join options "\n") with
  | error err =>
    rw [showFzfMenu_error env w err h]
    simp [eventsSince, menuShown]
  | ok o =>
    rw [showFzfMenu_ok env w o h]
    by_cases h1 : strings.TrimSpace o = "Create a new note"
    · obtain ⟨l, hl, _, _⟩ := newNote_events env (menuShown w)
      simp only [h1, if_true]
      rw [eventsSince_menuShown w _ l hl]
      rfl
    · by_cases h2 : strings.TrimSpace o = "Search and open notes"
      · obtain ⟨l, hl, _, _⟩ := searchNotes_events env (menuShown w)
        rw [if_neg h1, if_pos h2, eventsSince_menuShown w _ l hl]
        rfl
      · by_cases h3 : strings.TrimSpace o = "Delete a note"
        · obtain ⟨l, hl, _, _⟩ := deleteNote_events env (menuShown w)
          rw [if_neg h1, if_neg h2, if_pos h3, eventsSince_menuShown w _ l hl]
          rfl
        · by_cases h4 : strings.TrimSpace o = "Exit"
          · simp [h1, h2, h3, h4, eventsSince, menuShown]
          · simp [h1, h2, h3, h4, eventsSince, menuShown]

/-- C9 fails as stated. On the sample storage the menu puts four lines to the
selector, not five: there is no line for listing. -/
theorem menu_candidates_four :
    (eventsSince sampleWorld (showFzfMenu exitEnv sampleWorld).2).head? = some (.run fzf menuArgs
      (some "Create a new note\nSearch and open notes\nDelete a note\nExit")) ∧
    (splitChars (fun c => c == '\n') []
      "Create a new note\nSearch and open notes\nDelete a note\nExit".data).map String.mk
      = ["Create a new note", "Search and open notes", "Delete a note", "Exit"] ∧
    ¬ (options.length = 5) := by
  refine ⟨by decide, by decide, by decide⟩

/-! ## C10: selections of several lines -/

theorem dropWhile_keeps (p : Char → Bool) (x : Char) (hx : p x = false) (l₂ : List Char) :
    ∀ l₁ : List Char, ∃ l₁', (l₁ ++ x :: l₂).dropWhile p = l₁' ++ x :: l₂ := by
  intro l₁
  induction l₁ with
  | nil => exact ⟨[], by simp [List.dropWhile, hx]⟩
  | cons a l₁ ih =>
    cases ha : p a with
    | true =>
      obtain ⟨l', hl'⟩ := ih
      exact ⟨l', by simp [List.dropWhile, ha, hl']⟩
    | false => exact ⟨a :: l₁, by simp [List.dropWhile, ha]⟩

theorem mem_of_mem_dropWhile (p : Char → Bool) (c : Char) :
    ∀ l : List Char, c ∈ l.dropWhile p → c ∈ l := by
  intro l
  induction l with
  | nil => intro h; simp at h
  | cons a l ih =>
    intro h
    cases ha : p a with
    | true =>
      rw [List.dropWhile_cons_of_pos ha] at h
      exact List.mem_cons_of_mem _ (ih h)
    | false =>
      rw [List.dropWhile_cons_of_neg (by simp [ha])] at h
      exact h

theorem trimSpace_subset (s : String) (c : Char) (h : c ∈ (strings.TrimSpace s).data) :
    c ∈ s.data := by
  unfold strings.TrimSpace at h
  simp only [List.mem_reverse] at h
  have h' := mem_of_mem_dropWhile _ c _ h
  rw [List.mem_reverse] at h'
  exact mem_of_mem_dropWhile _ c _ h'

/-- Trimming keeps whatever stands between two characters that are not
white space. -/
theorem trimSpace_keeps (s : String) (a m b : List Char) (x y : Char)
    (hx : unicode.IsSpace x = false) (hy : unicode.IsSpace y = false)
    (hs : s.data = a ++ x :: (m ++ y :: b)) :
    ∀ c ∈ m, c ∈ (strings.TrimSpace s).data := by
  intro c hc
  unfold strings.TrimSpace
  rw [hs]
  obtain ⟨a', ha'⟩ := dropWhile_keeps unicode.IsSpace x hx (m ++ y :: b) a
  rw [ha']
  have hrev : (a' ++ x :: (m ++ y :: b)).reverse = b.reverse ++ y :: (a' ++ x :: m).reverse := by
    simp
  rw [hrev]
  obtain ⟨b', hb'⟩ := dropWhile_keeps unicode.IsSpace y hy (a' ++ x :: m).reverse b.reverse
  rw [hb']
  simp [hc]

theorem join_head (a : String) (rest : List String) (sep : String) :
    ∃ more : List Char, (strings.Join (a :: rest) sep).data = a.data ++ more := by
  cases rest with
  | nil => exact ⟨[], by simp [strings.Join]⟩
  | cons b rest => exact ⟨sep.data ++ (strings.Join (b :: rest) sep).data, by
      simp [strings.Join, String.data_append, List.append_assoc]⟩

theorem mem_join (sep : String) (c : Char) :
    ∀ l : List String, c ∈ (strings.Join l sep).data → c ∈ sep.data ∨ ∃ n ∈ l, c ∈ n.data := by
  intro l
  induction l with
  | nil => intro h; simp [strings.Join] at h
  | cons a rest ih =>
    intro h
    cases rest with
    | nil => exact Or.inr ⟨a, by simp, by simpa [strings.Join] using h⟩
    | cons b rest =>
      simp only [strings.Join, String.data_append, List.mem_append] at h
      rcases h with (h | h) | h
      · exact Or.inr ⟨a, by simp, h⟩
      · exact Or.inl h
      · rcases ih h with h | ⟨n, hn, hcn⟩
        · exact Or.inl h
        · exact Or.inr ⟨n, List.mem_cons_of_mem _ hn, hcn⟩

theorem find_append_single (n : String) :
    ∀ (d : Location) (f k : Forest), f.find d = .ok (.dir k) →
      f.find (d ++ [n]) = (match k.get n with | none => .error .notExist | some v => .ok v) := by
  intro d
  induction d with
  | nil =>
    intro f k h
    simp only [Forest.find] at h
    cases h
    cases hget : f.get n with
    | none => simp [Forest.find, hget]
    | some v => cases v <;> simp [Forest.find, hget]
  | cons x d ih =>
    intro f k h
    cases hget : f.get x with
    | none => simp [Forest.find, hget] at h
    | some v =>
      cases v with
      | file c => cases d <;> simp [Forest.find, hget] at h
      | dir k' =>
        rw [find_cons_dir f k' x d hget] at h
        rw [List.cons_append, find_cons_dir f k' x _ hget]
        exact ih k' k h

theorem getNotes_of_dir (env : Env) (w : World) (kids : Forest)
    (hread : env.readDirFault = none) (hdir : w.fs.find (notesLoc env) = .ok (.dir kids)) :
    (getNotes env w).1 = .ok (kids.names.filter (fun n => strings.HasSuffix n ".md")) := by
  rw [getNotes_eq, join_notesDir, readDir_fst env w _ kids hread hdir]

/-- The trimmed output of a selection of two or more names ending in `.md`,
one per line, still has a newline in it. -/
theorem trimSpace_multi (a b : String) (rest : List String) (tail : String)
    (ha : EndsInMd a) (hb : EndsInMd b) :
    '\n' ∈ (strings.TrimSpace (strings.Join (a :: b :: rest) "\n" ++ tail)).data := by
  obtain ⟨sa, hsa⟩ := endsInMd_data a ha
  obtain ⟨sb, hsb⟩ := endsInMd_data b hb
  obtain ⟨more, hmore⟩ := join_head b rest "\n"
  refine trimSpace_keeps _ (sa ++ ['.', 'm']) ('\n' :: sb)
    (['m', 'd'] ++ more ++ tail.data) 'd' '.' (by decide) (by decide) ?_ '\n' (by simp)
  simp [strings.Join, String.data_append, hsa, hsb, hmore, List.append_assoc]

/-- C10. Let the notes directory exist, with entry names that hold neither a
newline nor a path separator, and let the selector of `deleteNote` print two
or more listed notes, one per line. Then the path `deleteNote` uses is
`notesDir` joined with the whole trimmed output as one component; that
component has a newline in it; the path is the path of no listed note, it
leads to an entry of the notes directory of that name, and nothing exists
there; storage is left as it is, and after the confirmation
`y` or `Y` the run ends with a failed `os.Remove` of that path. In
`searchNotesWithFzf` as well the editor is started on `notesDir` joined with
the whole trimmed output. -/
theorem multi_selection (env : Env) (w : World) (kids : Forest) (notes : List String)
    (a b : String) (rest : List String) (tail out : String)
    (hread : env.readDirFault = none)
    (hdir : w.fs.find (notesLoc env) = .ok (.dir kids))
    (hnl : ∀ n ∈ kids.names, '\n' ∉ n.data)
    (hsep : ∀ n ∈ kids.names, NoSeparator env.goos n)
    (hnotes : notes = kids.names.filter (fun n => strings.HasSuffix n ".md"))
    (hsel : ∀ n ∈ a :: b :: rest, n ∈ notes)
    (htail : tail = "" ∨ tail = "\n")
    (hout : out = strings.Join (a :: b :: rest) "\n" ++ tail) :
    (getNotes env w).1 = .ok notes ∧
    (env.fzfOutput deleteArgs (strings.Join notes "\n") = .ok out →
      filepath.Join env.goos [notesDir, strings.TrimSpace out]
        = notesPath ++ [strings.TrimSpace out] ∧
      '\n' ∈ (strings.TrimSpace out).data ∧
      (∀ n ∈ notes, filepath.Join env.goos [notesDir, n] = notesPath ++ [n] ∧
        filepath.Join env.goos [notesDir, strings.TrimSpace out]
          ≠ filepath.Join env.goos [notesDir, n]) ∧
      locate env (filepath.Join env.goos [notesDir, strings.TrimSpace out])
        = notesLoc env ++ [strings.TrimSpace out] ∧
      w.fs.view (locate env (filepath.Join env.goos [notesDir, strings.TrimSpace out]))
        = .absent ∧
      (deleteNote env w).fs = w.fs ∧
      ((env.line = "y" ∨ env.line = "Y") →
        ∃ e : GoError, eventsSince w (deleteNote env w) =
          deleteAsk env notes (strings.TrimSpace out) ++
          [.remove (filepath.Join env.goos [notesDir, strings.TrimSpace out]),
           .print ("Error deleting note: " ++ e.Error ++ "\n")])) ∧
    (env.fzfOutput searchArgs (strings.Join notes "\n") = .ok out →
      searchNotesWithFzf env w =
        openInEditor env (filepath.Join env.goos [notesDir, strings.TrimSpace out])
          ⟨w.fs, w.trace ++ [.call "searchNotesWithFzf", .readDir notesPath,
            .run fzf searchArgs (some (strings.Join notes "\n"))]⟩) := by
  have hget : (getNotes env w).1 = .ok notes := by
    rw [hnotes]
    exact getNotes_of_dir env w kids hread hdir
  have hlisted : ∀ n ∈ notes, n ∈ kids.names ∧ EndsInMd n := by
    intro n hn
    rw [hnotes] at hn
    exact ⟨(List.mem_filter.1 hn).1, (hasSuffix_md_iff n).1 (List.mem_filter.1 hn).2⟩
  have hne : notes ≠ [] := by
    intro e
    have := hsel a (by simp)
    rw [e] at this
    cases this
  have ha := (hlisted a (hsel a (by simp))).2
  have hb := (hlisted b (hsel b (by simp))).2
  have hnewline : '\n' ∈ (strings.TrimSpace out).data := by
    rw [hout]
    exact trimSpace_multi a b rest tail ha hb
  have hnosep : NoSeparator env.goos (strings.TrimSpace out) := by
    intro c hc
    have hc' := trimSpace_subset out c hc
    rw [hout, String.data_append, List.mem_append] at hc'
    have hnlsep : IsPathSeparator env.goos '\n' = false := by
      cases env.goos <;> decide
    rcases hc' with hc' | hc'
    · rcases mem_join "\n" c _ hc' with hc' | ⟨n, hn, hcn⟩
      · have : c = '\n' := by simpa using hc'
        rw [this]
        exact hnlsep
      · exact hsep n (hlisted n (hsel n hn)).1 c hcn
    · rcases htail with rfl | rfl
      · simp at hc'
      · have : c = '\n' := by simpa using hc'
        rw [this]
        exact hnlsep
  have hplain : strings.TrimSpace out ≠ "" ∧ strings.TrimSpace out ≠ "." ∧
      strings.TrimSpace out ≠ ".." := by
    refine ⟨?_, ?_, ?_⟩ <;>
    · intro e
      rw [e] at hnewline
      revert hnewline
      decide
  have hpath := join_notesDir_name env.goos _ hnosep hplain.1 hplain.2.1 hplain.2.2
  have hnot : strings.TrimSpace out ∉ kids.names := fun hmem => hnl _ hmem hnewline
  have hloc : locate env (filepath.Join env.goos [notesDir, strings.TrimSpace out])
      = notesLoc env ++ [strings.TrimSpace out] := by
    rw [hpath, locate_notes_name env _ hplain.2.2]
  have habsent : w.fs.view
      (locate env (filepath.Join env.goos [notesDir, strings.TrimSpace out])) = .absent := by
    rw [hloc, view_absent_iff]
    refine ⟨.notExist, ?_⟩
    rw [find_append_single _ _ _ kids hdir, (get_eq_none_iff kids _).2 hnot]
  refine ⟨hget, ?_, ?_⟩
  · intro hfzf
    have hfail : ∃ e, (os.Remove env w
        (filepath.Join env.goos [notesDir, strings.TrimSpace out])).1 = some e := by
      cases hrm : (os.Remove env w
          (filepath.Join env.goos [notesDir, strings.TrimSpace out])).1 with
      | some e => exact ⟨e, rfl⟩
      | none =>
        obtain ⟨_, fs', halter⟩ := remove_fst_none env w _ hrm
        exact absurd habsent (view_before_remove _ _ _ halter)
    obtain ⟨e, hfail⟩ := hfail
    refine ⟨hpath, hnewline, ?_, hloc, habsent, ?_, ?_⟩
    · intro n hn
      obtain ⟨hmem, hmd⟩ := hlisted n hn
      obtain ⟨h0, h1, h2⟩ := endsInMd_plain n hmd
      have hn' := join_notesDir_name env.goos n (hsep n hmem) h0 h1 h2
      refine ⟨hn', ?_⟩
      rw [hpath, hn']
      intro heq
      have : strings.TrimSpace out = n := by simpa using heq
      exact hnl n hmem (by rw [← this]; exact hnewline)
    · by_cases hyes : env.line = "y" ∨ env.line = "Y"
      · rw [deleteNote_removeError env w notes out e hget hne hfzf hplain.1 hyes hfail]
      · rw [deleteNote_cancelled env w notes out hget hne hfzf hplain.1 hyes]
    · intro hyes
      refine ⟨e, ?_⟩
      rw [deleteNote_removeError env w notes out e hget hne hfzf hplain.1 hyes hfail,
        List.append_assoc, eventsSince_append]
  · intro hfzf
    exact searchNotes_open env w notes out hget hne hfzf hplain.1

/-- C10 on a storage with two notes, both marked in the selector. -/
theorem multi_selection_witness :
    (getNotes multiEnv ⟨twoNotesStorage, []⟩).1
      = .ok ["2023-12-31_old.md", "2024-01-01_todo.md"] ∧
    strings.TrimSpace "2023-12-31_old.md\n2024-01-01_todo.md\n"
      = "2023-12-31_old.md\n2024-01-01_todo.md" ∧
    filepath.Join multiEnv.goos
        [notesDir, strings.TrimSpace "2023-12-31_old.md\n2024-01-01_todo.md\n"]
      = notesPath ++ [strings.TrimSpace "2023-12-31_old.md\n2024-01-01_todo.md\n"] ∧
    (deleteNote multiEnv ⟨twoNotesStorage, []⟩).fs = twoNotesStorage ∧
    (∃ e : GoError, eventsSince ⟨twoNotesStorage, []⟩ (deleteNote multiEnv ⟨twoNotesStorage, []⟩) =
      deleteAsk multiEnv ["2023-12-31_old.md", "2024-01-01_todo.md"]
        (strings.TrimSpace "2023-12-31_old.md\n2024-01-01_todo.md\n") ++
      [.remove (filepath.Join multiEnv.goos
          [notesDir, strings.TrimSpace "2023-12-31_old.md\n2024-01-01_todo.md\n"]),
       .print ("Error deleting note: " ++ e.Error ++ "\n")]) :=
  have h := multi_selection multiEnv ⟨twoNotesStorage, []⟩
    (.file "2023-12-31_old.md" "# old\n\nCreated: 2023-12-31 23:59:59\n"
      (.file "2024-01-01_todo.md" "# todo\n\nCreated: 2024-01-01 09:05:08\n" .nil))
    ["2023-12-31_old.md", "2024-01-01_todo.md"]
    "2023-12-31_old.md" "2024-01-01_todo.md" [] "\n"
    "2023-12-31_old.md\n2024-01-01_todo.md\n"
    rfl rfl (by decide) (by unfold NoSeparator; decide) (by decide) (by decide) (Or.inr rfl)
    (by decide)
  ⟨h.1, by decide, (h.2.1 rfl).1, (h.2.1 rfl).2.2.2.2.2.1, (h.2.1 rfl).2.2.2.2.2.2 (by decide)⟩

end NoteFzf
